import Mathlib

/-!
Verification development for the MyCache-Go repository.

The Go source is shallowly embedded in Lean:
* Go slices and fixed-size arrays become `List`s accessed through the total
  helpers `lgetD` (read with a default, used only at indices shown in range)
  and `List.set` (which, like a guarded write, leaves the list unchanged out
  of range).
* Go `map`s become association lists with unique keys (`alookup`, `ainsert`,
  `aerase`); Go's zero-value-on-missing-key reads become `alookupD`.
* Machine integers: `int64` values (deadlines, counters) are `Int`; `uint16`
  and `int32` arithmetic carry explicit `% 2^16` / `% 2^32` reductions where
  the Go code can wrap.
* The process-wide nanosecond clock `now()` becomes an explicit time
  parameter `t : Int` threaded through the operations.
* Eviction callbacks become an explicit event list returned by each
  operation: the list holds exactly the `(key, value)` pairs the Go code
  would pass to a non-nil `onEvicted`.
-/

namespace MyCache

/-- Association-list lookup, modelling a read `m[k]` of a Go map
(`ok` form: `none` means absent). -/
def alookup {κ β : Type} [DecidableEq κ] : List (κ × β) → κ → Option β
  | [], _ => none
  | (k, v) :: rest, key => if k = key then some v else alookup rest key

/-- Association-list lookup with Go's zero-value default for missing keys. -/
def alookupD {κ β : Type} [DecidableEq κ] (m : List (κ × β)) (key : κ) (d : β) : β :=
  (alookup m key).getD d

/-- Insert/overwrite modelling a Go map write `m[k] = v`. -/
def ainsert {κ β : Type} [DecidableEq κ] : List (κ × β) → κ → β → List (κ × β)
  | [], key, v => [(key, v)]
  | (k, w) :: rest, key, v =>
      if k = key then (k, v) :: rest else (k, w) :: ainsert rest key v

/-- Deletion modelling Go's `delete(m, k)`. -/
def aerase {κ β : Type} [DecidableEq κ] : List (κ × β) → κ → List (κ × β)
  | [], _ => []
  | (k, w) :: rest, key => if k = key then rest else (k, w) :: aerase rest key

/-- Read of a Go slice element `s[i]`, with a default out of range
(the embedded operations only read in range under the stated hypotheses). -/
def lgetD {α : Type} (l : List α) (i : Nat) (d : α) : α := (l[i]?).getD d

/-! ## LRU2 bucket (`store/lru2/bucket.go`)

`cacheBucket` keeps a pre-allocated entry arena, a doubly linked list stored
as an array of `[prev, next]` pairs with the sentinel at index 0, and a
key-to-index map whose values are 1-based (`0` = absent).  Directions:
`links[i][0]` is prev, `links[i][1]` is next; moving to the head passes
target `1`, moving to the tail passes target `0` (matching the Go constants
used by `adjust`). -/

/-- One `[2]uint16` cell of the `links` array: `p` is `links[i][0]` (prev),
`n` is `links[i][1]` (next). -/
structure Link where
  p : Nat
  n : Nat
deriving Repr, DecidableEq

instance : Inhabited Link := ⟨⟨0, 0⟩⟩

/-- Read `links[i][dir]`. -/
def Link.dir (l : Link) (d : Nat) : Nat := if d = 0 then l.p else l.n

/-- Write `links[i][dir] = v`. -/
def Link.setDir (l : Link) (d : Nat) (v : Nat) : Link :=
  if d = 0 then { l with p := v } else { l with n := v }

/-- `cacheEntry`: `deadline = 0` means tombstoned, `-1` never expires,
positive is an expiry instant in nanoseconds.  `value` is `Option V`
because Go's `common.Value` is an interface that may be nil (and the
arena's zero value has a nil value). -/
structure CacheEntry (V : Type) where
  key : String
  value : Option V
  deadline : Int
deriving Repr, DecidableEq

instance {V : Type} : Inhabited (CacheEntry V) := ⟨⟨"", none, 0⟩⟩

/-- `cacheBucket` state.  `links` has length `cap+1` (index 0 is the
sentinel), `entries` has length `cap`, `keyToIndex` maps keys to 1-based
entry indices, `size` counts the used arena slots. -/
structure CacheBucket (V : Type) where
  links : List Link
  entries : List (CacheEntry V)
  keyToIndex : List (String × Nat)
  size : Nat
deriving Repr, DecidableEq

instance {V : Type} : Inhabited (CacheBucket V) := ⟨⟨[], [], [], 0⟩⟩

namespace CacheBucket

/-- `createCache(cap)`. -/
def create (V : Type) (cap : Nat) : CacheBucket V :=
  { links := List.replicate (cap + 1) ⟨0, 0⟩
    entries := List.replicate cap default
    keyToIndex := []
    size := 0 }

/-- `adjust(nodeIdx, target)`: move node `nodeIdx` to the head
(`target = 1`) or tail (`target = 0`) of the list; the writes are threaded
in the Go statement order. -/
def adjust {V : Type} (b : CacheBucket V) (nodeIdx target : Nat) : CacheBucket V :=
  let opposite := 1 - target
  if (lgetD b.links nodeIdx default).dir opposite = 0 then b
  else
    let currPrev := (lgetD b.links nodeIdx default).p
    let currNext := (lgetD b.links nodeIdx default).n
    let ls := b.links.set currPrev ((lgetD b.links currPrev default).setDir 1 currNext)
    let ls := ls.set currNext ((lgetD ls currNext default).setDir 0 currPrev)
    let targetHead := (lgetD ls 0 default).dir target
    let ls := ls.set nodeIdx (((lgetD ls nodeIdx default).setDir opposite 0).setDir target targetHead)
    let ls := ls.set targetHead ((lgetD ls targetHead default).setDir opposite nodeIdx)
    let ls := ls.set 0 ((lgetD ls 0 default).setDir target nodeIdx)
    { b with links := ls }

/-- `put(key, val, deadline, onEvicted)`.  Returns the new bucket, the Go
return status (1 = inserted, 0 = updated), and the eviction-callback events
(the `(key, value)` pairs passed to a non-nil `onEvicted`; the Go guard is
`onEvicted != nil && tail.deadline > 0`). -/
def put {V : Type} (b : CacheBucket V) (key : String) (val : Option V) (deadline : Int) :
    CacheBucket V × Int × List (String × Option V) :=
  match alookup b.keyToIndex key with
  | some idx =>
    let e := lgetD b.entries (idx - 1) default
    let b' := adjust { b with entries := b.entries.set (idx - 1) { e with value := val, deadline := deadline } } idx 1
    (b', 0, [])
  | none =>
    if b.size = b.entries.length then
      let tailIdx := (lgetD b.links 0 default).p
      let tailE := lgetD b.entries (tailIdx - 1) default
      let events := if 0 < tailE.deadline then [(tailE.key, tailE.value)] else []
      let k2i := ainsert (aerase b.keyToIndex tailE.key) key tailIdx
      let b' := adjust { b with keyToIndex := k2i
                                entries := b.entries.set (tailIdx - 1) ⟨key, val, deadline⟩ } tailIdx 1
      (b', 1, events)
    else
      let size := b.size + 1
      let ls :=
        if b.keyToIndex.length = 0 then
          b.links.set 0 ((lgetD b.links 0 default).setDir 0 size)
        else
          b.links.set (lgetD b.links 0 default).n
            ((lgetD b.links (lgetD b.links 0 default).n default).setDir 0 size)
      let es := b.entries.set (size - 1) ⟨key, val, deadline⟩
      let ls := ls.set size ⟨0, (lgetD ls 0 default).n⟩
      let k2i := ainsert b.keyToIndex key size
      let ls := ls.set 0 ((lgetD ls 0 default).setDir 1 size)
      ({ links := ls, entries := es, keyToIndex := k2i, size := size }, 1, [])

/-- `get(key)`: splice to head if present and return the entry
(no expiry check at this level). -/
def get {V : Type} (b : CacheBucket V) (key : String) :
    CacheBucket V × Option (CacheEntry V) :=
  match alookup b.keyToIndex key with
  | some idx =>
    let b' := adjust b idx 1
    (b', some (lgetD b'.entries (idx - 1) default))
  | none => (b, none)

/-- `del(key)`: if present with `deadline ≠ 0`, tombstone (`deadline = 0`),
splice to the tail and return `(entry, true, old deadline)`; otherwise
return `(nil, false, 0)` with the bucket untouched. -/
def del {V : Type} (b : CacheBucket V) (key : String) :
    CacheBucket V × Option (CacheEntry V) × Bool × Int :=
  match alookup b.keyToIndex key with
  | some idx =>
    if (lgetD b.entries (idx - 1) default).deadline ≠ 0 then
      let d := (lgetD b.entries (idx - 1) default).deadline
      let e := lgetD b.entries (idx - 1) default
      let b' := adjust { b with entries := b.entries.set (idx - 1) { e with deadline := 0 } } idx 0
      (b', some (lgetD b'.entries (idx - 1) default), true, d)
    else (b, none, false, 0)
  | none => (b, none, false, 0)

end CacheBucket

/-! ## LRU2 store (`store/lru2/utils.go`, `constructor.go`, `cache.go`)

`hashBKRD` is the BKDR hash computed in Go on an `int32` accumulator; since
the bucket index is obtained by `&`-ing with a mask below `2^16`, the model
tracks the 32-bit pattern of the accumulator (`% 2^32`), which determines
the signed `int32` value and agrees with it bit for bit, so the `&` below
is exactly the Go `int32` `&`. -/

/-- The UTF-8 bytes of a string (what indexing a Go string yields). -/
def strBytes (s : String) : List Nat :=
  s.data.flatMap (fun c => (String.utf8EncodeChar c).map (fun b => b.toNat))

/-- 32-bit pattern of the signed `int32` BKDR hash `h = h*131 + byte` over
the key's UTF-8 bytes (`hashBKRD` in `utils.go`). -/
def hashBKRDBits (s : String) : Nat :=
  (strBytes s).foldl (fun h b => (h * 131 + b) % 4294967296) 0

/-- The signed `int32` value `hashBKRD` returns. -/
def hashBKRD (s : String) : Int :=
  ((hashBKRDBits s : Int) + 2 ^ 31) % 2 ^ 32 - 2 ^ 31

/-- `maskOfNextPowOf2` on a `uint16` input: bit-smearing of the highest set
bit; all intermediate values stay below `2^16` when the input does. -/
def maskOfNextPowOf2 (cap : Nat) : Nat :=
  if 0 < cap ∧ cap &&& (cap - 1) = 0 then cap - 1
  else
    let c := cap ||| (cap >>> 1)
    let c := c ||| (c >>> 2)
    let c := c ||| (c >>> 4)
    c ||| (c >>> 8)

/-- The bucket mask `New` computes: `maskOfNextPowOf2(bucketCount)` with the
`bucketCount == 0` default of 16 applied first. -/
def lru2Mask (bucketCount : Nat) : Nat :=
  maskOfNextPowOf2 (if bucketCount = 0 then 16 else bucketCount)

/-- The number of buckets `New` allocates: `make(..., mask+1)` where
`mask+1` is computed in `uint16` arithmetic and therefore wraps at
`2^16`. -/
def lru2NumBuckets (bucketCount : Nat) : Nat :=
  (lru2Mask bucketCount + 1) % 65536

/-- The bucket index every LRU2 operation computes:
`hashBKRD(key) & bucketMask` (`int32` `&`, identical to the `&` of the
32-bit patterns because the mask is below `2^16`). -/
def lru2BucketIndex (key : String) (mask : Nat) : Nat :=
  hashBKRDBits key &&& mask

/-- `LRU2Cache`: the bucket array (pairs `[0]` = L1, `[1]` = L2) and the
bucket mask.  Locks and the cleanup ticker are concurrency plumbing with no
sequential content. -/
structure LRU2Cache (V : Type) where
  buckets : List (CacheBucket V × CacheBucket V)
  bucketMask : Nat
deriving Repr, DecidableEq

instance {V : Type} : Inhabited (LRU2Cache V) := ⟨⟨[], 0⟩⟩

namespace LRU2Cache

/-- The per-bucket state reached through `l.buckets[idx]`. -/
def bucketAt {V : Type} (c : LRU2Cache V) (idx : Nat) : CacheBucket V × CacheBucket V :=
  lgetD c.buckets idx default

/-- Write back `l.buckets[idx]`. -/
def setBucket {V : Type} (c : LRU2Cache V) (idx : Nat) (b : CacheBucket V × CacheBucket V) :
    LRU2Cache V :=
  { c with buckets := c.buckets.set idx b }

/-- `keyToBucketIndex(key)`. -/
def keyToBucketIndex {V : Type} (c : LRU2Cache V) (key : String) : Nat :=
  lru2BucketIndex key c.bucketMask

/-- Internal `delete(key, idx)`: consuming `del` on both tiers, then the
eviction callback once (L1 entry preferred, nil values skipped). -/
def deleteAt {V : Type} (c : LRU2Cache V) (key : String) (idx : Nat) :
    LRU2Cache V × Bool × List (String × Option V) :=
  let (l1, l2) := c.bucketAt idx
  let (l1', n1, f1, _) := l1.del key
  let (l2', n2, f2, _) := l2.del key
  let deleted := f1 || f2
  let events :=
    if deleted then
      match n1 with
      | some e1 => if e1.value.isSome then [(key, e1.value)] else
          match n2 with
          | some e2 => if e2.value.isSome then [(key, e2.value)] else []
          | none => []
      | none =>
        match n2 with
        | some e2 => if e2.value.isSome then [(key, e2.value)] else []
        | none => []
    else []
  (c.setBucket idx (l1', l2'), deleted, events)

/-- `getFromLevel(key, idx, level)` restricted to L2 (`level = 1`), the only
level the code calls it with: a positional `get` plus the expiry check. -/
def getFromLevel2 {V : Type} (c : LRU2Cache V) (t : Int) (key : String) (idx : Nat) :
    LRU2Cache V × Option (CacheEntry V) :=
  let (l1, l2) := c.bucketAt idx
  let (l2', n) := l2.get key
  let c' := c.setBucket idx (l1, l2')
  match n with
  | some e =>
    if e.deadline = 0 ∨ (0 < e.deadline ∧ e.deadline ≤ t) then (c', none)
    else (c', some e)
  | none => (c', none)

/-- `Get(key)` at clock value `t` (the two `now()` reads inside one locked
section are modelled as the same instant).  Returns the new store, the Go
`(common.Value, bool)` result and the eviction-callback events. -/
def Get {V : Type} (c : LRU2Cache V) (t : Int) (key : String) :
    LRU2Cache V × Option V × Bool × List (String × Option V) :=
  let idx := c.keyToBucketIndex key
  let (l1, l2) := c.bucketAt idx
  let (l1', n1, found, deadline) := l1.del key
  let c1 := c.setBucket idx (l1', l2)
  if found then
    if 0 < deadline ∧ deadline ≤ t then
      let (c2, _, evs) := c1.deleteAt key idx
      (c2, none, false, evs)
    else
      let e := n1.getD default
      let (l2', _, evs) := l2.put key e.value deadline
      (c1.setBucket idx (l1', l2'), e.value, true, evs)
  else
    let (c2, n2) := c1.getFromLevel2 t key idx
    match n2 with
    | some e =>
      if 0 < e.deadline ∧ e.deadline ≤ t then
        let (c3, _, evs) := c2.deleteAt key idx
        (c3, none, false, evs)
      else (c2, e.value, true, [])
    | none => (c2, none, false, [])

/-- `SetWithExpiration(key, value, expiration)` at clock value `t`:
deadline `t + expiration` when positive, else `-1`; `put` into L1. -/
def SetWithExpiration {V : Type} (c : LRU2Cache V) (t : Int) (key : String)
    (value : Option V) (expiration : Int) :
    LRU2Cache V × List (String × Option V) :=
  let deadline := if 0 < expiration then t + expiration else -1
  let idx := c.keyToBucketIndex key
  let (l1, l2) := c.bucketAt idx
  let (l1', _, evs) := l1.put key value deadline
  (c.setBucket idx (l1', l2), evs)

/-- `Set(key, value)`: `put` into L1 with deadline `-1` (never expires). -/
def Set {V : Type} (c : LRU2Cache V) (key : String) (value : Option V) :
    LRU2Cache V × List (String × Option V) :=
  let idx := c.keyToBucketIndex key
  let (l1, l2) := c.bucketAt idx
  let (l1', _, evs) := l1.put key value (-1)
  (c.setBucket idx (l1', l2), evs)

/-- `Delete(key)`. -/
def Delete {V : Type} (c : LRU2Cache V) (key : String) :
    LRU2Cache V × Bool × List (String × Option V) :=
  c.deleteAt key (c.keyToBucketIndex key)

end LRU2Cache

/-! ## Single-tier LRU store (`store/lru/cache.go`, `access.go`)

`container/list` elements keyed by unique keys are modelled by the key
order list `order` (front = `Front()`, the eviction end; `PushBack` and
`MoveToBack` operate on the back) together with the key-to-value map
`values` (the `entries` map joined with each element's `cacheEntry`).
`expirationMap` is `expiration`.  Values are `V` plus a length function
`lenOf` standing for the `common.Value.Len()` method; `len(key)` is the
UTF-8 byte length.  Callback events are returned explicitly. -/

structure LRUCache (V : Type) where
  order : List String
  values : List (String × V)
  expiration : List (String × Int)
  maxBytes : Int
  usedBytes : Int
deriving Repr, DecidableEq

namespace LRUCache

/-- `len(key)` in Go: the byte length of the string. -/
def keyLen (s : String) : Int := (s.utf8ByteSize : Int)

/-- Move an existing element to the back of the list (`MoveToBack`). -/
def moveToBack (l : List String) (k : String) : List String :=
  if k ∈ l then l.erase k ++ [k] else l

/-- `removeElement(elem)`: unlink, drop from both maps, release bytes, fire
the callback.  The Go code is only called with a present element; the
absent branch is the guard of that precondition. -/
def removeElement {V : Type} (lenOf : V → Int) (c : LRUCache V) (key : String) :
    LRUCache V × List (String × V) :=
  match alookup c.values key with
  | some v =>
    ({ order := c.order.erase key
       values := aerase c.values key
       expiration := aerase c.expiration key
       maxBytes := c.maxBytes
       usedBytes := c.usedBytes - (keyLen key + lenOf v) }, [(key, v)])
  | none => (c, [])

/-- `Delete(key)`. -/
def Delete {V : Type} (lenOf : V → Int) (c : LRUCache V) (key : String) :
    LRUCache V × Bool × List (String × V) :=
  match alookup c.values key with
  | some _ =>
    let (c', evs) := removeElement lenOf c key
    (c', true, evs)
  | none => (c, false, [])

/-- The expired-entry sweep at the head of `evict`: iterate the snapshot of
`expirationMap`, removing entries whose expiry is strictly before `t`. -/
def evictExpired {V : Type} (lenOf : V → Int) (snapshot : List (String × Int)) (t : Int)
    (c : LRUCache V) : LRUCache V × List (String × V) :=
  snapshot.foldl
    (fun (acc : LRUCache V × List (String × V)) p =>
      if p.2 < t ∧ (alookup acc.1.values p.1).isSome then
        let (c', evs) := removeElement lenOf acc.1 p.1
        (c', acc.2 ++ evs)
      else acc)
    (c, [])

/-- The byte-budget loop of `evict`: remove front elements while
`maxBytes > 0 && usedBytes > maxBytes && Len() > 0`.  The fuel is the list
length, which bounds the number of removals. -/
def evictLoop {V : Type} (lenOf : V → Int) : Nat → LRUCache V → LRUCache V × List (String × V)
  | 0, c => (c, [])
  | fuel + 1, c =>
    if 0 < c.maxBytes ∧ c.maxBytes < c.usedBytes ∧ c.order ≠ [] then
      match c.order with
      | front :: _ =>
        let (c', evs) := removeElement lenOf c front
        let (c'', evs') := evictLoop lenOf fuel c'
        (c'', evs ++ evs')
      | [] => (c, [])
    else (c, [])

/-- `evict()` at wall-clock `t`. -/
def evict {V : Type} (lenOf : V → Int) (c : LRUCache V) (t : Int) :
    LRUCache V × List (String × V) :=
  let (c1, e1) := evictExpired lenOf c.expiration t c
  let (c2, e2) := evictLoop lenOf c1.order.length c1
  (c2, e1 ++ e2)

/-- `SetWithExpiration(key, value, expiration)` at wall-clock `t`.  The
returned `Option GroupErrNever` slot is the Go `error`, which is `nil` on
every path; it is kept so the theorems can state that. -/
def SetWithExpiration {V : Type} (lenOf : V → Int) (c : LRUCache V) (t : Int)
    (key : String) (value : Option V) (expiration : Int) :
    LRUCache V × Option String × List (String × V) :=
  match value with
  | none =>
    let (c', _, evs) := Delete lenOf c key
    (c', none, evs)
  | some v =>
    let c :=
      if 0 < expiration then { c with expiration := ainsert c.expiration key (t + expiration) }
      else { c with expiration := aerase c.expiration key }
    match alookup c.values key with
    | some old =>
      ({ c with usedBytes := c.usedBytes + (lenOf v - lenOf old)
                values := ainsert c.values key v
                order := moveToBack c.order key }, none, [])
    | none =>
      let c := { c with order := c.order ++ [key]
                        values := ainsert c.values key v
                        usedBytes := c.usedBytes + (keyLen key + lenOf v) }
      let (c', evs) := evict lenOf c t
      (c', none, evs)

/-- `Set(key, value)` = `SetWithExpiration(key, value, 0)`. -/
def Set {V : Type} (lenOf : V → Int) (c : LRUCache V) (t : Int) (key : String)
    (value : Option V) : LRUCache V × Option String × List (String × V) :=
  SetWithExpiration lenOf c t key value 0

end LRUCache

/-! ## Consistent-hash ring (`consistenthash/ring.go`, `balancer.go`)

The hash function (`config.HashFunc`, CRC32-IEEE by default) is an opaque
parameter `hashF : String → Int`.  `float64` arithmetic in the rebalancer
is modelled over exact rationals; Go's `int(float64)` conversion truncates
toward zero (`goTrunc`).  `rebalanceNodes` holds the ring's non-reentrant
`sync.RWMutex` while calling `Remove`, which re-acquires it; the resulting
permanent block is modelled by an `Option` result (`none` = the method
never returns). -/

structure HashRing where
  keys : List Int
  hashMap : List (Int × String)
  nodeReplicas : List (String × Int)
  nodeCounts : List (String × Int)
  totalRequests : Int
deriving Repr, DecidableEq

/-- Modelled from the spec: `consistenthash/config.go` is not under `src/`.
The spec gives the fields and defaults: per-node virtual-node count 50,
replica clamp range 10..200, load-balance threshold 0.25. -/
structure RingConfig where
  defaultReplicas : Int
  minReplicas : Int
  maxReplicas : Int
  threshold : ℚ
deriving Repr, DecidableEq

/-- Modelled from the spec: the `DefaultConfig` values (50, 10, 200, 0.25). -/
def DefaultRingConfig : RingConfig := ⟨50, 10, 200, 1 / 4⟩

namespace HashRing

/-- Go's `sort.Search(n, f)`: binary search returning the smallest index
with `f` true when `f` is monotone, `n` when none; the halving matches the
Go implementation (`h := (i+j)/2`, `!f(h) → i = h+1`, else `j = h`). -/
def goSortSearch (f : Nat → Bool) (i j : Nat) : Nat :=
  if h : i < j then
    let m := (i + j) / 2
    if f m then goSortSearch f i m else goSortSearch f (m + 1) j
  else i
termination_by j - i
decreasing_by
  · omega
  · omega

/-- The virtual-node identifier `fmt.Sprintf("%s-%d", node, i)`. -/
def virtualName (node : String) (i : Nat) : String :=
  node ++ "-" ++ toString i

/-- `Get(key)`: empty key or empty ring give `""`; otherwise binary-search
`keys` for the hash, wrap to 0, read the node, bump its counter and the
total. -/
def Get (hashF : String → Int) (r : HashRing) (key : String) : HashRing × String :=
  if key = "" then (r, "")
  else if r.keys.length = 0 then (r, "")
  else
    let hash := hashF key
    let idx := goSortSearch (fun i => decide (hash ≤ lgetD r.keys i 0)) 0 r.keys.length
    let idx := if idx = r.keys.length then 0 else idx
    let node := alookupD r.hashMap (lgetD r.keys idx 0) ""
    ({ r with nodeCounts := ainsert r.nodeCounts node (alookupD r.nodeCounts node 0 + 1)
              totalRequests := r.totalRequests + 1 }, node)

/-- `addNode(node, replicas)`. -/
def addNode (hashF : String → Int) (r : HashRing) (node : String) (replicas : Int) : HashRing :=
  let r := (List.range replicas.toNat).foldl
    (fun (r : HashRing) i =>
      let h := hashF (virtualName node i)
      { r with keys := r.keys ++ [h], hashMap := ainsert r.hashMap h node }) r
  { r with nodeReplicas := ainsert r.nodeReplicas node replicas }

/-- `Remove(node)` (the Go error strings are kept verbatim). -/
def Remove (hashF : String → Int) (r : HashRing) (node : String) : Except String HashRing :=
  if node = "" then .error "invalid node"
  else
    let replicas := alookupD r.nodeReplicas node 0
    if replicas = 0 then .error ("node " ++ node ++ " not found")
    else
      let r := (List.range replicas.toNat).foldl
        (fun (r : HashRing) i =>
          let h := hashF (virtualName node i)
          { r with hashMap := aerase r.hashMap h, keys := r.keys.erase h }) r
      .ok { r with nodeReplicas := aerase r.nodeReplicas node
                   nodeCounts := aerase r.nodeCounts node }

/-- Go's `int(x)` conversion of a `float64`: truncation toward zero. -/
def goTrunc (q : ℚ) : Int := if 0 ≤ q then ⌊q⌋ else ⌈q⌉

/-- The per-node replica computation of `rebalanceNodes`: reduce by
`current / ratio` when `ratio > 1`, grow by `current * (2 - ratio)`
otherwise, truncate to `int`, then clamp to `[minReplicas, maxReplicas]`. -/
def newReplicasClamped (cfg : RingConfig) (current count : Int) (avg : ℚ) : Int :=
  let lr : ℚ := (count : ℚ) / avg
  let nr := if 1 < lr then goTrunc ((current : ℚ) / lr)
            else goTrunc ((current : ℚ) * (2 - lr))
  let nr := if nr < cfg.minReplicas then cfg.minReplicas else nr
  if cfg.maxReplicas < nr then cfg.maxReplicas else nr

/-- A counted node on which the `for node, count := range r.nodeCounts` loop
of `rebalanceNodes` blocks: its name is non-empty (for an empty name the
nested `Remove` returns `invalid node` *before* taking the lock and the loop
continues) and its clamped new replica count differs from its current one,
so the loop enters the resize branch and calls `r.Remove(node)` while
`rebalanceNodes` already holds `r.mu`. -/
def rebalWouldBlock (cfg : RingConfig) (avg : ℚ) (r : HashRing) (p : String × Int) : Bool :=
  !(p.1 == "") && !(newReplicasClamped cfg (alookupD r.nodeReplicas p.1 0) p.2 avg ==
      alookupD r.nodeReplicas p.1 0)

/-- `rebalanceNodes()` with the non-reentrant `sync.RWMutex` modelled.  The
method takes `r.mu.Lock()` and holds it for its whole body, but the resize
branch calls `r.Remove(node)`, which takes `r.mu.Lock()` again; a Go mutex
is not reentrant, so that call blocks forever and the method never returns:
the model yields `none`.  No iteration before the blocking one can have
changed the ring (an empty node name errors out of `Remove` before its
lock, and a node whose clamped count equals its current count skips the
branch), so the blocking condition is an order-independent `any` over the
entries, and only when no counted node resizes does the method reach the
counter reset, the `totalRequests` store and the key re-sort. -/
def rebalanceNodes (cfg : RingConfig) (r : HashRing) : Option HashRing :=
  let avg : ℚ := (r.totalRequests : ℚ) / (r.nodeReplicas.length : ℚ)
  if r.nodeCounts.any (rebalWouldBlock cfg avg r) then none
  else
    some { r with
      nodeCounts := r.nodeCounts.map (fun p : String × Int => (p.1, (0 : Int)))
      totalRequests := 0
      keys := r.keys.mergeSort (fun a b => a ≤ b) }

end HashRing

/-! ## Singleflight (`singleflight/singleflight.go`)

`Do` for one fixed key, executed by two concurrent goroutines under an
interleaving semantics.  The atomic actions are exactly the shared-state
accesses of the code: the `callsMap.Load`, the `callsMap.Store` (the call
to `fn` begins right after it), and the return of `fn` followed by
`waitGroup.Done()` and `callsMap.Delete`. -/

inductive SFPc where
  /-- about to execute `callsMap.Load(key)` -/
  | start
  /-- `Load` missed; about to `Store` the own call and invoke `fn` -/
  | missed
  /-- `Load` hit the call stored by `leader`; blocked in `Wait()` -/
  | waiting (leader : Bool)
  /-- `fn` has been invoked and has not returned: in flight -/
  | inFlight
  /-- `Do` returned -/
  | done
deriving Repr, DecidableEq

/-- Shared map entry for the key (`none` = absent, `some g` = the call
stored by goroutine `g`) plus both goroutines' program counters. -/
structure SFState where
  stored : Option Bool
  pcOf0 : SFPc
  pcOf1 : SFPc
deriving Repr, DecidableEq

namespace SFState

def pcOf (s : SFState) (g : Bool) : SFPc := if g then s.pcOf1 else s.pcOf0

def withPc (s : SFState) (g : Bool) (pc : SFPc) : SFState :=
  if g then { s with pcOf1 := pc } else { s with pcOf0 := pc }

/-- One atomic action of goroutine `g` executing `Do`. -/
def step (s : SFState) (g : Bool) : SFState :=
  match s.pcOf g with
  | .start =>
    match s.stored with
    | some c => s.withPc g (.waiting c)
    | none => s.withPc g .missed
  | .missed => { s.withPc g .inFlight with stored := some g }
  | .inFlight => { s.withPc g .done with stored := none }
  | .waiting c => if s.pcOf c = .done then s.withPc g .done else s
  | .done => s

/-- Run a schedule from the initial state (both goroutines about to Load,
map empty). -/
def run (sched : List Bool) : SFState :=
  sched.foldl step ⟨none, .start, .start⟩

end SFState

/-! ## Group facade and RPC handlers (`group.go`, `server.go`)

`group.go` is `src/unnamed/part_000`, `server.go` is in
`src/unnamed/part_005`.  The `Cache` facade (`cache.go` of the root
package) is not under `src/`; modelled from the spec as a key-to-bytes
store probed on Get and written on Set/load.  Byte slices are `List Nat`;
`cloneBytes` has no observable effect on a pure value.  The singleflight
`Do` around the loader is executed sequentially (the in-flight-sharing
behaviour is the subject of the singleflight model above). -/

/-- The group errors with their literal Go messages. -/
inductive GroupErr where
  | groupClosed
  | keyRequired
  | valueRequired
  /-- data-source failure wrapped by `fmt.Errorf("failed to get data: %w", err)` -/
  | dataSource (msg : String)
deriving Repr, DecidableEq

def GroupErr.message : GroupErr → String
  | .groupClosed => "cache: group is closed"
  | .keyRequired => "cache: key is required"
  | .valueRequired => "cache: value is required"
  | .dataSource m => "failed to get data: " ++ m

/-- The observable group state: the closed flag, the local cache contents
(modelled from the spec as a map, see above), and whether a `PeerPicker` is
registered. -/
structure GroupState where
  closed : Bool
  localCache : List (String × List Nat)
  hasPeers : Bool
deriving Repr, DecidableEq

/-- Collaborator oracles for one call: the data source, the `PickPeer`
outcome, and the peer `Get`. -/
structure GroupEnv where
  dataSource : String → Except String (List Nat)
  pickOk : String → Bool
  pickSelf : String → Bool
  peerGet : String → Except String (List Nat)

/-- A Go `context.Context` as far as the group consults it: whether
`ctx.Value("from_peer")` is non-null. -/
structure Ctx where
  fromPeer : Bool
deriving Repr, DecidableEq

/-- An outgoing propagation RPC produced by `syncToPeers`: which method,
the key/value, and whether the call is made with a context carrying the
from-peer marker (`syncCtx` for Set; `peer.Delete(name, key)` takes no
context at all). -/
structure SyncReq where
  op : String
  key : String
  value : List Nat
  ctxFromPeer : Bool
deriving Repr, DecidableEq

namespace Group

/-- `Group.Get(ctx, key)`: closed/empty-key validation, local probe, then
the singleflight-wrapped `fetchData` (peer first when one is picked and is
not self, falling through to the data source on peer failure), installing
the loaded bytes. -/
def Get (g : GroupState) (env : GroupEnv) (key : String) :
    GroupState × Except GroupErr (List Nat) :=
  if g.closed then (g, .error .groupClosed)
  else if key = "" then (g, .error .keyRequired)
  else
    match alookup g.localCache key with
    | some v => (g, .ok v)
    | none =>
      let fetched : Except String (List Nat) :=
        if g.hasPeers ∧ env.pickOk key ∧ ¬env.pickSelf key then
          match env.peerGet key with
          | .ok v => .ok v
          | .error _ => env.dataSource key
        else env.dataSource key
      match fetched with
      | .ok v => ({ g with localCache := ainsert g.localCache key v }, .ok v)
      | .error m => (g, .error (.dataSource m))

/-- `syncToPeers(ctx, op, key, value)`: pick the ring owner; skip when none
or self; `set` goes out with the fresh `syncCtx` carrying the from-peer
marker, `delete` goes out through `peer.Delete(name, key)` without any
context. -/
def syncToPeers (g : GroupState) (env : GroupEnv) (op key : String) (value : List Nat) :
    Option SyncReq :=
  if ¬g.hasPeers then none
  else if ¬env.pickOk key ∨ env.pickSelf key then none
  else if op = "set" then some ⟨"set", key, value, true⟩
  else if op = "delete" then some ⟨"delete", key, [], false⟩
  else none

/-- `Group.Set(ctx, key, value)`.  Returns the state, the Go error and the
asynchronous propagation request (if any). -/
def Set (g : GroupState) (env : GroupEnv) (ctx : Ctx) (key : String) (value : List Nat) :
    GroupState × Option GroupErr × Option SyncReq :=
  if g.closed then (g, some .groupClosed, none)
  else if key = "" then (g, some .keyRequired, none)
  else if value.length = 0 then (g, some .valueRequired, none)
  else
    let isPeerRequest := ctx.fromPeer
    let g' := { g with localCache := ainsert g.localCache key value }
    if ¬isPeerRequest ∧ g'.hasPeers then (g', none, syncToPeers g' env "set" key value)
    else (g', none, none)

/-- `Group.Delete(ctx, key)`. -/
def Delete (g : GroupState) (env : GroupEnv) (ctx : Ctx) (key : String) :
    GroupState × Option GroupErr × Option SyncReq :=
  if g.closed then (g, some .groupClosed, none)
  else if key = "" then (g, some .keyRequired, none)
  else
    let g' := { g with localCache := aerase g.localCache key }
    let isPeerRequest := ctx.fromPeer
    if ¬isPeerRequest ∧ g'.hasPeers then (g', none, syncToPeers g' env "delete" key [])
    else (g', none, none)

end Group

namespace Server

/-- `Server.Set` handler: re-establishes the from-peer marker on the
context before calling `Group.Set`. -/
def SetHandler (g : GroupState) (env : GroupEnv) (ctx : Ctx) (key : String)
    (value : List Nat) : GroupState × Option GroupErr × Option SyncReq :=
  let ctx := if ctx.fromPeer then ctx else ⟨true⟩
  Group.Set g env ctx key value

/-- `Server.Delete` handler: passes the incoming context through to
`Group.Delete` unchanged (no marker injection). -/
def DeleteHandler (g : GroupState) (env : GroupEnv) (ctx : Ctx) (key : String) :
    GroupState × Option GroupErr × Option SyncReq :=
  Group.Delete g env ctx key

/-- The context a receiving `Delete` handler starts from: the client call
`peer.Delete(group, key)` has no context parameter, so the incoming gRPC
context cannot carry the sender's marker. -/
def deliveredDeleteCtx (_req : SyncReq) : Ctx := ⟨false⟩

end Server

/-! # Lemmas and claim theorems

Everything above this line is the embedding of the Go source; everything
below proves properties of it. -/

theorem alookup_ainsert_self {κ β : Type} [DecidableEq κ] (m : List (κ × β)) (k : κ) (v : β) :
    alookup (ainsert m k v) k = some v := by
  induction m with
  | nil => simp [ainsert, alookup]
  | cons hd tl ih =>
    obtain ⟨k', w⟩ := hd
    by_cases h : k' = k <;> simp [ainsert, alookup, h, ih]

theorem alookup_ainsert_ne {κ β : Type} [DecidableEq κ] (m : List (κ × β)) (k k' : κ) (v : β)
    (h : k ≠ k') : alookup (ainsert m k v) k' = alookup m k' := by
  induction m with
  | nil => simp [ainsert, alookup, h]
  | cons hd tl ih =>
    obtain ⟨k₀, w⟩ := hd
    by_cases h0 : k₀ = k
    · subst h0; simp [ainsert, alookup, h]
    · simp [ainsert, alookup, h0, ih]

theorem alookup_aerase_ne {κ β : Type} [DecidableEq κ] (m : List (κ × β)) (k k' : κ)
    (h : k ≠ k') : alookup (aerase m k) k' = alookup m k' := by
  induction m with
  | nil => simp [aerase]
  | cons hd tl ih =>
    obtain ⟨k₀, w⟩ := hd
    by_cases h0 : k₀ = k
    · subst h0
      simp [aerase, alookup, h]
    · simp [aerase, alookup, h0, ih]

theorem alookup_mem {κ β : Type} [DecidableEq κ] (m : List (κ × β)) (k : κ) (v : β)
    (h : alookup m k = some v) : (k, v) ∈ m := by
  induction m with
  | nil => simp [alookup] at h
  | cons hd tl ih =>
    obtain ⟨k₀, w⟩ := hd
    by_cases h0 : k₀ = k
    · subst h0
      simp [alookup] at h
      simp [h]
    · simp [alookup, h0] at h
      simp [ih h]

theorem lgetD_set_self {α : Type} (l : List α) (i : Nat) (v d : α) (h : i < l.length) :
    lgetD (l.set i v) i d = v := by
  simp [lgetD, List.getElem?_set_self (by simpa using h)]

theorem lgetD_set_ne {α : Type} (l : List α) (i j : Nat) (v d : α) (h : i ≠ j) :
    lgetD (l.set i v) j d = lgetD l j d := by
  simp [lgetD, List.getElem?_set_ne h]

theorem lgetD_eq_getElem {α : Type} (l : List α) (i : Nat) (d : α) (h : i < l.length) :
    lgetD l i d = l[i] := by
  simp [lgetD, List.getElem?_eq_getElem h]

namespace CacheBucket

theorem adjust_entries {V : Type} (b : CacheBucket V) (i t : Nat) :
    (adjust b i t).entries = b.entries := by
  unfold adjust
  dsimp only
  split <;> rfl

theorem adjust_keyToIndex {V : Type} (b : CacheBucket V) (i t : Nat) :
    (adjust b i t).keyToIndex = b.keyToIndex := by
  unfold adjust
  dsimp only
  split <;> rfl

theorem adjust_size {V : Type} (b : CacheBucket V) (i t : Nat) :
    (adjust b i t).size = b.size := by
  unfold adjust
  dsimp only
  split <;> rfl

theorem adjust_links_length {V : Type} (b : CacheBucket V) (i t : Nat) :
    (adjust b i t).links.length = b.links.length := by
  unfold adjust
  dsimp only
  split
  · rfl
  · simp

/-- After `adjust(i, tail)` the sentinel's prev pointer is `i`: in the no-op
branch this needs the well-formedness fact that a node whose next pointer is
0 is the current tail. -/
theorem adjust_tail_sentinel {V : Type} (b : CacheBucket V) (i : Nat)
    (h0 : 0 < b.links.length)
    (hwf : (lgetD b.links i default).n = 0 → (lgetD b.links 0 default).p = i) :
    (lgetD (adjust b i 0).links 0 default).p = i := by
  unfold adjust
  dsimp only
  split
  · next h =>
    simp only [Link.dir] at h
    exact hwf (by simpa using h)
  · next h =>
    have hlen : ∀ (l : List Link) (j : Nat) (v : Link),
        (l.set j v).length = l.length := by intro l j v; simp
    rw [lgetD_set_self]
    · simp [Link.setDir]
    · simp [h0]

theorem del_miss {V : Type} (b : CacheBucket V) (key : String)
    (h : alookup b.keyToIndex key = none ∨
      ∃ i, alookup b.keyToIndex key = some i ∧ (lgetD b.entries (i - 1) default).deadline = 0) :
    b.del key = (b, none, false, 0) := by
  unfold del
  rcases h with h | ⟨i, hi, hd⟩
  · simp [h]
  · simp [hi, hd]

/-- `put` always leaves the key present, with the requested value and
deadline, at a valid 1-based slot.  The hypotheses are the bucket
invariants `New`/`put` maintain: mapped indices are valid, `size` never
exceeds capacity, capacity is positive, and on a full bucket the sentinel's
prev is a valid slot. -/
theorem put_lookup {V : Type} (b : CacheBucket V) (key : String) (val : Option V) (d : Int)
    (hk2i : ∀ p ∈ b.keyToIndex, 1 ≤ p.2 ∧ p.2 ≤ b.entries.length)
    (hsz : b.size ≤ b.entries.length)
    (hpos : 0 < b.entries.length)
    (htail : b.size = b.entries.length →
      1 ≤ (lgetD b.links 0 default).p ∧ (lgetD b.links 0 default).p ≤ b.entries.length) :
    ∃ j, 1 ≤ j ∧ j ≤ b.entries.length ∧
      alookup (b.put key val d).1.keyToIndex key = some j ∧
      (lgetD (b.put key val d).1.entries (j - 1) default).value = val ∧
      (lgetD (b.put key val d).1.entries (j - 1) default).deadline = d := by
  unfold put
  cases hl : alookup b.keyToIndex key with
  | some idx =>
    have hmem : (key, idx) ∈ b.keyToIndex := alookup_mem b.keyToIndex key idx hl
    have hb := hk2i _ hmem
    have hlt : idx - 1 < b.entries.length := by omega
    refine ⟨idx, hb.1, hb.2, ?_, ?_, ?_⟩
    · rw [adjust_keyToIndex]
      exact hl
    · rw [adjust_entries]
      dsimp only
      rw [lgetD_set_self _ _ _ _ (by simpa using hlt)]
    · rw [adjust_entries]
      dsimp only
      rw [lgetD_set_self _ _ _ _ (by simpa using hlt)]
  | none =>
    dsimp only
    by_cases hfull : b.size = b.entries.length
    · rw [if_pos hfull]
      have ht := htail hfull
      have hlt : (lgetD b.links 0 default).p - 1 < b.entries.length := by omega
      refine ⟨(lgetD b.links 0 default).p, ht.1, ht.2, ?_, ?_, ?_⟩
      · rw [adjust_keyToIndex]
        exact alookup_ainsert_self _ _ _
      · rw [adjust_entries]
        dsimp only
        rw [lgetD_set_self _ _ _ _ (by simpa using hlt)]
      · rw [adjust_entries]
        dsimp only
        rw [lgetD_set_self _ _ _ _ (by simpa using hlt)]
    · rw [if_neg hfull]
      have hlt : b.size + 1 - 1 < b.entries.length := by omega
      refine ⟨b.size + 1, by omega, by omega, ?_, ?_, ?_⟩
      · exact alookup_ainsert_self _ _ _
      · rw [lgetD_set_self _ _ _ _ (by simpa using hlt)]
      · rw [lgetD_set_self _ _ _ _ (by simpa using hlt)]

/-- Components of `del` on a present, live entry. -/
theorem del_found {V : Type} (b : CacheBucket V) (key : String) (i : Nat)
    (hl : alookup b.keyToIndex key = some i)
    (hd : (lgetD b.entries (i - 1) default).deadline ≠ 0)
    (hi : 1 ≤ i) (hilen : i ≤ b.entries.length) :
    (b.del key).2.2.1 = true ∧
    (b.del key).2.2.2 = (lgetD b.entries (i - 1) default).deadline ∧
    (b.del key).2.1 = some { lgetD b.entries (i - 1) default with deadline := 0 } ∧
    (b.del key).1.keyToIndex = b.keyToIndex ∧
    (b.del key).1.entries =
      b.entries.set (i - 1) { lgetD b.entries (i - 1) default with deadline := 0 } := by
  have hlt : i - 1 < b.entries.length := by omega
  unfold del
  rw [hl]
  dsimp only
  rw [if_pos hd]
  refine ⟨rfl, rfl, ?_, ?_, ?_⟩
  · dsimp only
    rw [adjust_entries]
    dsimp only
    rw [lgetD_set_self _ _ _ _ (by simpa using hlt)]
  · dsimp only
    rw [adjust_keyToIndex]
  · dsimp only
    rw [adjust_entries]

/-- `del` on a present live entry, as one tuple equation. -/
theorem del_found_eq {V : Type} (b : CacheBucket V) (key : String) (i : Nat)
    (hl : alookup b.keyToIndex key = some i)
    (hd : (lgetD b.entries (i - 1) default).deadline ≠ 0)
    (hi1 : 1 ≤ i) (hi2 : i ≤ b.entries.length) :
    b.del key =
      (adjust { b with entries := b.entries.set (i - 1) ({ lgetD b.entries (i - 1) default with deadline := 0 }) } i 0,
       some { lgetD b.entries (i - 1) default with deadline := 0 }, true,
       (lgetD b.entries (i - 1) default).deadline) := by
  have hlt : i - 1 < b.entries.length := by omega
  unfold del
  rw [hl]
  dsimp only
  rw [if_pos hd]
  have hres : lgetD (adjust { b with entries := b.entries.set (i - 1) ({ lgetD b.entries (i - 1) default with deadline := 0 }) } i 0).entries (i - 1) default =
      { lgetD b.entries (i - 1) default with deadline := 0 } := by
    rw [adjust_entries]
    dsimp only
    exact lgetD_set_self _ _ _ _ (by simpa using hlt)
  rw [hres]

/-- `del` returning `found = false` means it did nothing at all. -/
theorem del_not_found {V : Type} (b : CacheBucket V) (key : String)
    (h : (b.del key).2.2.1 = false) : b.del key = (b, none, false, 0) := by
  unfold del at h ⊢
  cases hl : alookup b.keyToIndex key with
  | some i =>
    rw [hl] at h
    dsimp only at h
    by_cases hd : (lgetD b.entries (i - 1) default).deadline ≠ 0
    · rw [if_pos hd] at h
      simp at h
    · dsimp only
      rw [if_neg hd]
  | none => rfl

/-- `get` on a present key, as one tuple equation. -/
theorem get_found_eq {V : Type} (b : CacheBucket V) (key : String) (j : Nat)
    (hl : alookup b.keyToIndex key = some j) :
    b.get key = (adjust b j 1, some (lgetD b.entries (j - 1) default)) := by
  unfold get
  rw [hl]
  dsimp only
  rw [adjust_entries]

end CacheBucket

namespace LRU2Cache

theorem bucketAt_setBucket {V : Type} (c : LRU2Cache V) (idx : Nat)
    (bp : CacheBucket V × CacheBucket V) (h : idx < c.buckets.length) :
    (c.setBucket idx bp).bucketAt idx = bp := by
  unfold setBucket bucketAt
  exact lgetD_set_self _ _ _ _ h

theorem setBucket_buckets_length {V : Type} (c : LRU2Cache V) (idx : Nat)
    (bp : CacheBucket V × CacheBucket V) :
    (c.setBucket idx bp).buckets.length = c.buckets.length := by
  simp [setBucket]

theorem setBucket_bucketMask {V : Type} (c : LRU2Cache V) (idx : Nat)
    (bp : CacheBucket V × CacheBucket V) :
    (c.setBucket idx bp).bucketMask = c.bucketMask := rfl

theorem bucketAt_setBucket_ite {V : Type} (c : LRU2Cache V) (idx : Nat)
    (bp : CacheBucket V × CacheBucket V) :
    (c.setBucket idx bp).bucketAt idx =
      if idx < c.buckets.length then bp else c.bucketAt idx := by
  unfold setBucket bucketAt
  by_cases h : idx < c.buckets.length
  · rw [if_pos h]
    exact lgetD_set_self _ _ _ _ h
  · rw [if_neg h]
    dsimp only
    rw [List.set_eq_of_length_le (by omega)]

end LRU2Cache

/-- C1: LRU2 `Get` tier demotion.  For a key whose bucket's L1 tier holds a
live, unexpired entry, `Get` consumes it from L1 via `del` (the slot is
tombstoned while the key map still points at it), installs it into the L2
tier of the same bucket via `put` with the same deadline and value, and
returns the stored value with hit `true`.  On an L1 miss (the consuming
`del` found nothing) a live, unexpired L2 entry is returned
non-consumingly: L2's entries and key map are untouched. -/
theorem c1_lru2_get_tier_demotion {V : Type} (c : LRU2Cache V) (t : Int) (key : String)
    (idx : Nat) (l1 l2 : CacheBucket V)
    (hidxdef : idx = c.keyToBucketIndex key)
    (hbdef : c.bucketAt idx = (l1, l2))
    (hidx : idx < c.buckets.length)
    (hk2i2 : ∀ p ∈ l2.keyToIndex, 1 ≤ p.2 ∧ p.2 ≤ l2.entries.length)
    (hsz2 : l2.size ≤ l2.entries.length)
    (hpos2 : 0 < l2.entries.length)
    (htail2 : l2.size = l2.entries.length →
      1 ≤ (lgetD l2.links 0 default).p ∧ (lgetD l2.links 0 default).p ≤ l2.entries.length) :
    (∀ i, alookup l1.keyToIndex key = some i → 1 ≤ i → i ≤ l1.entries.length →
      (lgetD l1.entries (i - 1) default).deadline ≠ 0 →
      ¬(0 < (lgetD l1.entries (i - 1) default).deadline ∧
          (lgetD l1.entries (i - 1) default).deadline ≤ t) →
      (c.Get t key).2.1 = (lgetD l1.entries (i - 1) default).value ∧
      (c.Get t key).2.2.1 = true ∧
      alookup ((c.Get t key).1.bucketAt idx).1.keyToIndex key = some i ∧
      (lgetD ((c.Get t key).1.bucketAt idx).1.entries (i - 1) default).deadline = 0 ∧
      ∃ j, 1 ≤ j ∧ j ≤ l2.entries.length ∧
        alookup ((c.Get t key).1.bucketAt idx).2.keyToIndex key = some j ∧
        (lgetD ((c.Get t key).1.bucketAt idx).2.entries (j - 1) default).value =
          (lgetD l1.entries (i - 1) default).value ∧
        (lgetD ((c.Get t key).1.bucketAt idx).2.entries (j - 1) default).deadline =
          (lgetD l1.entries (i - 1) default).deadline) ∧
    ((l1.del key).2.2.1 = false →
      ∀ j, alookup l2.keyToIndex key = some j →
        (lgetD l2.entries (j - 1) default).deadline ≠ 0 →
        ¬(0 < (lgetD l2.entries (j - 1) default).deadline ∧
            (lgetD l2.entries (j - 1) default).deadline ≤ t) →
        (c.Get t key).2.1 = (lgetD l2.entries (j - 1) default).value ∧
        (c.Get t key).2.2.1 = true ∧
        ((c.Get t key).1.bucketAt idx).2.entries = l2.entries ∧
        ((c.Get t key).1.bucketAt idx).2.keyToIndex = l2.keyToIndex) := by
  have hGet : ∀ r : LRU2Cache V × Option V × Bool × List (String × Option V),
      c.Get t key = r → c.Get t key = r := fun _ h => h
  constructor
  · intro i hl hi1 hi2 hd hunexp
    have hdel := CacheBucket.del_found_eq l1 key i hl hd hi1 hi2
    have hput := CacheBucket.put_lookup l2 key
      (lgetD l1.entries (i - 1) default).value (lgetD l1.entries (i - 1) default).deadline
      hk2i2 hsz2 hpos2 htail2
    obtain ⟨j, hj1, hj2, hjl, hjv, hjd⟩ := hput
    unfold LRU2Cache.Get
    rw [← hidxdef]
    dsimp only
    rw [hbdef]
    dsimp only
    rw [hdel]
    dsimp only
    simp only [eq_self_iff_true, if_true, Option.getD_some]
    rw [if_neg hunexp]
    dsimp only
    rcases hput2 : l2.put key (lgetD l1.entries (i - 1) default).value
        (lgetD l1.entries (i - 1) default).deadline with ⟨l2', st, evs⟩
    rw [hput2] at hjl hjv hjd
    dsimp only at hjl hjv hjd ⊢
    simp only [LRU2Cache.bucketAt_setBucket_ite, LRU2Cache.setBucket_buckets_length, hidx,
      if_true]
    refine ⟨by trivial, by trivial, ?_, ?_, ⟨j, hj1, hj2, ?_, ?_, ?_⟩⟩
    · rw [CacheBucket.adjust_keyToIndex]
      exact hl
    · rw [CacheBucket.adjust_entries]
      dsimp only
      rw [lgetD_set_self _ _ _ _ (by omega)]
    · exact hjl
    · exact hjv
    · exact hjd
  · intro hmiss j hjl hjd hjun
    have hdel := CacheBucket.del_not_found l1 key hmiss
    have hget := CacheBucket.get_found_eq l2 key j hjl
    unfold LRU2Cache.Get
    rw [← hidxdef]
    dsimp only
    rw [hbdef]
    dsimp only
    rw [hdel]
    dsimp only
    rw [if_neg (show ¬false = true by simp)]
    unfold LRU2Cache.getFromLevel2
    simp only [LRU2Cache.bucketAt_setBucket_ite, LRU2Cache.setBucket_buckets_length, hidx,
      if_true]
    rw [hget]
    dsimp only
    rw [if_neg (by rw [not_or]; exact ⟨hjd, hjun⟩)]
    dsimp only
    rw [if_neg hjun]
    dsimp only
    simp only [LRU2Cache.bucketAt_setBucket_ite, LRU2Cache.setBucket_buckets_length, hidx,
      if_true]
    refine ⟨by trivial, by trivial, ?_, ?_⟩
    · rw [CacheBucket.adjust_entries]
    · rw [CacheBucket.adjust_keyToIndex]

theorem alookup_eq_none {κ β : Type} [DecidableEq κ] (m : List (κ × β)) (k : κ)
    (h : k ∉ m.map Prod.fst) : alookup m k = none := by
  induction m with
  | nil => rfl
  | cons hd tl ih =>
    obtain ⟨k₀, w⟩ := hd
    simp only [List.map_cons, List.mem_cons] at h
    push_neg at h
    simp [alookup, Ne.symm h.1, ih h.2]

theorem alookup_isSome_of_mem {κ β : Type} [DecidableEq κ] (m : List (κ × β)) (k : κ) (v : β)
    (h : (k, v) ∈ m) : (alookup m k).isSome := by
  induction m with
  | nil => simp at h
  | cons hd tl ih =>
    obtain ⟨k₀, w⟩ := hd
    rcases List.mem_cons.1 h with h1 | h1
    · cases h1
      simp [alookup]
    · by_cases h0 : k₀ = k <;> simp [alookup, h0, ih h1]

theorem alookup_aerase_self {κ β : Type} [DecidableEq κ] (m : List (κ × β)) (k : κ)
    (hnd : (m.map Prod.fst).Nodup) : alookup (aerase m k) k = none := by
  induction m with
  | nil => rfl
  | cons hd tl ih =>
    obtain ⟨k₀, w⟩ := hd
    simp only [List.map_cons, List.nodup_cons] at hnd
    by_cases h0 : k₀ = k
    · subst h0
      simp only [aerase, if_pos rfl]
      exact alookup_eq_none tl k₀ hnd.1
    · simp [aerase, h0, alookup, ih hnd.2]

/-- C1 witness: a single-bucket store whose L1 holds a live never-expire
entry; `Get` demotes it to L2 and returns it; on the demoted state a second
`Get` hits L2 non-consumingly. -/
theorem c1_lru2_get_tier_demotion_witness :
    ((LRU2Cache.Get (⟨[(((CacheBucket.create Nat 2).put "k" (some 7) (-1)).1,
        CacheBucket.create Nat 2)], 0⟩ : LRU2Cache Nat) 100 "k").2.1 = some 7 ∧
     (LRU2Cache.Get (⟨[(((CacheBucket.create Nat 2).put "k" (some 7) (-1)).1,
        CacheBucket.create Nat 2)], 0⟩ : LRU2Cache Nat) 100 "k").2.2.1 = true) ∧
    ((LRU2Cache.Get (⟨[(((((CacheBucket.create Nat 2).put "k" (some 7) (-1)).1.del "k").1),
        ((CacheBucket.create Nat 2).put "k" (some 7) (-1)).1)], 0⟩ : LRU2Cache Nat)
        100 "k").2.1 = some 7 ∧
     ((LRU2Cache.Get (⟨[(((((CacheBucket.create Nat 2).put "k" (some 7) (-1)).1.del "k").1),
        ((CacheBucket.create Nat 2).put "k" (some 7) (-1)).1)], 0⟩ : LRU2Cache Nat)
        100 "k").1.bucketAt 0).2.keyToIndex =
       ((CacheBucket.create Nat 2).put "k" (some 7) (-1)).1.keyToIndex) := by
  have hA := c1_lru2_get_tier_demotion
    (⟨[(((CacheBucket.create Nat 2).put "k" (some 7) (-1)).1,
        CacheBucket.create Nat 2)], 0⟩ : LRU2Cache Nat) 100 "k" 0
    (((CacheBucket.create Nat 2).put "k" (some 7) (-1)).1) (CacheBucket.create Nat 2)
    (by decide) (by decide) (by decide) (by decide) (by decide) (by decide) (by decide)
  have hA1 := hA.1 1 (by decide) (by decide) (by decide) (by decide) (by decide)
  have hB := c1_lru2_get_tier_demotion
    (⟨[(((((CacheBucket.create Nat 2).put "k" (some 7) (-1)).1.del "k").1),
        ((CacheBucket.create Nat 2).put "k" (some 7) (-1)).1)], 0⟩ : LRU2Cache Nat) 100 "k" 0
    ((((CacheBucket.create Nat 2).put "k" (some 7) (-1)).1.del "k").1)
    (((CacheBucket.create Nat 2).put "k" (some 7) (-1)).1)
    (by decide) (by decide) (by decide) (by decide) (by decide) (by decide) (by decide)
  have hB1 := hB.2 (by decide) 1 (by decide) (by decide) (by decide)
  exact ⟨⟨hA1.1, hA1.2.1⟩, ⟨hB1.1, hB1.2.2.2⟩⟩

/-- C2 counterexample: a capacity-1 bucket holds a live never-expire entry
(`deadline = -1 ≠ 0`, the claim's notion of live); a `put` of an absent key
on the full bucket evicts that entry but fires no callback, because the Go
guard is `tail.deadline > 0`, not `deadline ≠ 0`. -/
theorem c2_counterexample_never_expire_evicted_silently :
    (lgetD ((CacheBucket.create Nat 1).put "a" (some 0) (-1)).1.entries 0 default).deadline
        = -1 ∧
    (-1 : Int) ≠ 0 ∧
    (((CacheBucket.create Nat 1).put "a" (some 0) (-1)).1.put "b" (some 1) 5).2.2 = [] := by
  refine ⟨by decide, by decide, by decide⟩

/-- C2 (amended): on a `put` of an absent key into a full bucket, the tail
slot is evicted (reused for the new entry, which the key map now points
to) and the return status is *inserted*; the eviction callback fires if and
only if the evicted slot's deadline is positive — live entries with
`deadline = -1` (never expire) are evicted silently, and tombstoned slots
(`deadline = 0`) fire no callback when reused. -/
theorem c2_put_full_bucket_eviction_callback {V : Type} (b : CacheBucket V)
    (key : String) (val : Option V) (d : Int)
    (habs : alookup b.keyToIndex key = none)
    (hfull : b.size = b.entries.length)
    (ht1 : 1 ≤ (lgetD b.links 0 default).p)
    (ht2 : (lgetD b.links 0 default).p ≤ b.entries.length) :
    (b.put key val d).2.1 = 1 ∧
    (0 < (lgetD b.entries ((lgetD b.links 0 default).p - 1) default).deadline →
      (b.put key val d).2.2 =
        [((lgetD b.entries ((lgetD b.links 0 default).p - 1) default).key,
          (lgetD b.entries ((lgetD b.links 0 default).p - 1) default).value)]) ∧
    ((lgetD b.entries ((lgetD b.links 0 default).p - 1) default).deadline ≤ 0 →
      (b.put key val d).2.2 = []) ∧
    alookup (b.put key val d).1.keyToIndex key = some (lgetD b.links 0 default).p ∧
    lgetD (b.put key val d).1.entries ((lgetD b.links 0 default).p - 1) default
      = ⟨key, val, d⟩ := by
  have hlt : (lgetD b.links 0 default).p - 1 < b.entries.length := by omega
  unfold CacheBucket.put
  rw [habs]
  dsimp only
  rw [if_pos hfull]
  refine ⟨rfl, ?_, ?_, ?_, ?_⟩
  · intro h
    dsimp only
    rw [if_pos h]
  · intro h
    dsimp only
    rw [if_neg (by omega)]
  · dsimp only
    rw [CacheBucket.adjust_keyToIndex]
    exact alookup_ainsert_self _ _ _
  · dsimp only
    rw [CacheBucket.adjust_entries]
    dsimp only
    rw [lgetD_set_self _ _ _ _ (by simpa using hlt)]

/-- C2 witness: the amended theorem applied to a full capacity-1 bucket
holding a positive-deadline entry (callback fires with that entry) and to
one holding a never-expire entry (no callback). -/
theorem c2_put_full_bucket_eviction_callback_witness :
    ((((CacheBucket.create Nat 1).put "x" (some 2) 5).1.put "y" (some 3) 9).2.2
        = [("x", some 2)]) ∧
    ((((CacheBucket.create Nat 1).put "a" (some 0) (-1)).1.put "b" (some 1) 5).2.2 = []) := by
  have h1 := c2_put_full_bucket_eviction_callback
    ((CacheBucket.create Nat 1).put "x" (some 2) 5).1 "y" (some 3) 9
    (by decide) (by decide) (by decide) (by decide)
  have h2 := c2_put_full_bucket_eviction_callback
    ((CacheBucket.create Nat 1).put "a" (some 0) (-1)).1 "b" (some 1) 5
    (by decide) (by decide) (by decide) (by decide)
  exact ⟨h1.2.1 (by decide), h2.2.2.1 (by decide)⟩

/-- C3: bucket `del` semantics.  On a present entry with `deadline ≠ 0`
(including `-1`, never expires) `del` tombstones the slot, splices it to
the list tail, and returns the entry with `found = true` and the old
deadline; on an absent key or a tombstoned slot it returns
`(nil, false, 0)` and leaves the bucket entirely unchanged. -/
theorem c3_bucket_del_semantics {V : Type} (b : CacheBucket V) (key : String)
    (h0 : 0 < b.links.length)
    (hk2i : ∀ p ∈ b.keyToIndex, 1 ≤ p.2 ∧ p.2 ≤ b.entries.length)
    (htl : ∀ p ∈ b.keyToIndex,
      (lgetD b.links p.2 default).n = 0 → (lgetD b.links 0 default).p = p.2) :
    (∀ i, alookup b.keyToIndex key = some i →
      (lgetD b.entries (i - 1) default).deadline ≠ 0 →
      (b.del key).2.2.1 = true ∧
      (b.del key).2.2.2 = (lgetD b.entries (i - 1) default).deadline ∧
      (b.del key).2.1 = some { lgetD b.entries (i - 1) default with deadline := 0 } ∧
      (b.del key).1.keyToIndex = b.keyToIndex ∧
      (b.del key).1.entries =
        b.entries.set (i - 1) { lgetD b.entries (i - 1) default with deadline := 0 } ∧
      (lgetD (b.del key).1.links 0 default).p = i) ∧
    ((alookup b.keyToIndex key = none ∨
        ∃ i, alookup b.keyToIndex key = some i ∧
          (lgetD b.entries (i - 1) default).deadline = 0) →
      b.del key = (b, none, false, 0)) := by
  refine ⟨?_, CacheBucket.del_miss b key⟩
  intro i hl hd
  have hmem := alookup_mem b.keyToIndex key i hl
  have hb := hk2i _ hmem
  have hcomp := CacheBucket.del_found b key i hl hd hb.1 hb.2
  refine ⟨hcomp.1, hcomp.2.1, hcomp.2.2.1, hcomp.2.2.2.1, hcomp.2.2.2.2, ?_⟩
  unfold CacheBucket.del
  rw [hl]
  dsimp only
  rw [if_pos hd]
  dsimp only
  exact CacheBucket.adjust_tail_sentinel _ i (by simpa using h0) (htl _ hmem)

/-- C3 witness: a capacity-2 bucket with a live never-expire entry; `del`
returns it with the old deadline `-1`, tombstones and tail-splices the
slot, and a second `del` (now tombstoned) and a `del` of an absent key
leave the bucket unchanged. -/
theorem c3_bucket_del_semantics_witness :
    ((((CacheBucket.create Nat 2).put "a" (some 1) (-1)).1.del "a").2.2.1 = true ∧
     (((CacheBucket.create Nat 2).put "a" (some 1) (-1)).1.del "a").2.2.2 = -1 ∧
     (lgetD ((((CacheBucket.create Nat 2).put "a" (some 1) (-1)).1.del "a").1.links) 0
        default).p = 1) ∧
    ((((CacheBucket.create Nat 2).put "a" (some 1) (-1)).1.del "a").1.del "a" =
      (((((CacheBucket.create Nat 2).put "a" (some 1) (-1)).1.del "a").1), none, false, 0)) ∧
    (((CacheBucket.create Nat 2).put "a" (some 1) (-1)).1.del "z" =
      ((((CacheBucket.create Nat 2).put "a" (some 1) (-1)).1), none, false, 0)) := by
  have h1 := c3_bucket_del_semantics ((CacheBucket.create Nat 2).put "a" (some 1) (-1)).1 "a"
    (by decide) (by decide) (by decide)
  have hone := h1.1 1 (by decide) (by decide)
  have h2 := c3_bucket_del_semantics
    (((CacheBucket.create Nat 2).put "a" (some 1) (-1)).1.del "a").1 "a"
    (by decide) (by decide) (by decide)
  have h3 := c3_bucket_del_semantics ((CacheBucket.create Nat 2).put "a" (some 1) (-1)).1 "z"
    (by decide) (by decide) (by decide)
  exact ⟨⟨hone.1, hone.2.1, hone.2.2.2.2.2⟩,
    h2.2 (Or.inr ⟨1, by decide, by decide⟩), h3.2 (Or.inl (by decide))⟩

/-- C4: singleflight coalescing.  The code checks `callsMap.Load` and then
publishes with `callsMap.Store` as two separate atomic steps, so two
goroutines that both miss on `Load` both invoke `fn`: after the schedule
Load(g0), Load(g1), Store+invoke(g0), Store+invoke(g1) both goroutines are
executing `fn` for the same key at the same moment, violating the
at-most-one-in-flight guarantee stated by the claim and by the function's
own documentation. -/
theorem c4_singleflight_two_in_flight :
    (SFState.run [false, true, false, true]).pcOf0 = SFPc.inFlight ∧
    (SFState.run [false, true, false, true]).pcOf1 = SFPc.inFlight := by
  decide

/-- C5: group operation failure conditions.  `Get` rejects a closed group
with `ErrGroupClosed` and an empty key with `ErrKeyRequired`, and otherwise
can only fail with a wrapped data-source error (a peer failure falls
through to the data source); `Set` additionally rejects an empty value;
`Set`/`Delete` fail exactly on these validation and lifecycle checks and
never because of peer propagation.  The error messages are the literal Go
strings. -/
theorem c5_group_error_conditions (g : GroupState) (env : GroupEnv) (ctx : Ctx)
    (key : String) (value : List Nat) :
    (g.closed = true → (Group.Get g env key).2 = .error .groupClosed) ∧
    (g.closed = false → key = "" → (Group.Get g env key).2 = .error .keyRequired) ∧
    (∀ e, (Group.Get g env key).2 = .error e →
      (e = .groupClosed ∧ g.closed = true) ∨
      (e = .keyRequired ∧ key = "") ∨
      ∃ m, e = .dataSource m ∧ env.dataSource key = .error m) ∧
    (∀ e, (Group.Set g env ctx key value).2.1 = some e ↔
      (g.closed = true ∧ e = .groupClosed) ∨
      (g.closed = false ∧ key = "" ∧ e = .keyRequired) ∨
      (g.closed = false ∧ key ≠ "" ∧ value = [] ∧ e = .valueRequired)) ∧
    (∀ e, (Group.Delete g env ctx key).2.1 = some e ↔
      (g.closed = true ∧ e = .groupClosed) ∨
      (g.closed = false ∧ key = "" ∧ e = .keyRequired)) ∧
    GroupErr.message .groupClosed = "cache: group is closed" ∧
    GroupErr.message .keyRequired = "cache: key is required" ∧
    GroupErr.message .valueRequired = "cache: value is required" := by
  by_cases hc : g.closed
  · refine ⟨fun _ => by simp [Group.Get, hc], fun h => by simp [h] at hc, ?_, ?_, ?_, rfl, rfl, rfl⟩
    · intro e he
      simp [Group.Get, hc] at he
      exact Or.inl ⟨he.symm, hc⟩
    · intro e
      simp [Group.Set, hc]
      exact eq_comm
    · intro e
      simp [Group.Delete, hc]
      exact eq_comm
  · by_cases hk : key = ""
    · refine ⟨fun h => absurd h (by simp [hc]), fun _ _ => by simp [Group.Get, hc, hk], ?_, ?_, ?_,
        rfl, rfl, rfl⟩
      · intro e he
        simp [Group.Get, hc, hk] at he
        exact Or.inr (Or.inl ⟨he.symm, hk⟩)
      · intro e
        simp [Group.Set, hc, hk]
        exact eq_comm
      · intro e
        simp [Group.Delete, hc, hk]
        exact eq_comm
    · refine ⟨fun h => absurd h (by simp [hc]), fun _ h => absurd h hk, ?_, ?_, ?_, rfl, rfl, rfl⟩
      · intro e he
        simp only [Group.Get] at he
        rw [if_neg hc, if_neg hk] at he
        rcases hl : alookup g.localCache key with _ | v
        · rw [hl] at he
          rcases hpe : (if g.hasPeers ∧ env.pickOk key ∧ ¬env.pickSelf key then
              match env.peerGet key with
              | .ok v => Except.ok v
              | .error _ => env.dataSource key
            else env.dataSource key) with m | v2
          · rw [hpe] at he
            simp at he
            refine Or.inr (Or.inr ⟨m, he.symm, ?_⟩)
            by_cases hp : g.hasPeers ∧ env.pickOk key ∧ ¬env.pickSelf key
            · rw [if_pos hp] at hpe
              rcases hg : env.peerGet key with m2 | v3 <;> rw [hg] at hpe <;> simp_all
            · rw [if_neg hp] at hpe
              exact hpe
          · rw [hpe] at he
            simp at he
        · rw [hl] at he
          simp at he
      · intro e
        by_cases hv : value = []
        · simp [Group.Set, hc, hk, hv]
          exact eq_comm
        · refine iff_of_false ?_ (by simp [hc, hk, hv])
          have hlv : ¬value.length = 0 := by simpa [List.length_eq_zero] using hv
          simp [Group.Set, hc, hk, hlv]
          split <;> simp
      · intro e
        refine iff_of_false ?_ (by simp [hc, hk])
        simp [Group.Delete, hc, hk]
        split <;> simp

/-- C5 witness. -/
theorem c5_group_error_conditions_witness :
    (Group.Get ⟨true, [], false⟩
      ⟨fun _ => .error "ds", fun _ => false, fun _ => false, fun _ => .error "pg"⟩ "k").2 =
      .error .groupClosed := by
  have h := c5_group_error_conditions ⟨true, [], false⟩
    ⟨fun _ => .error "ds", fun _ => false, fun _ => false, fun _ => .error "pg"⟩ ⟨false⟩ "k" [1]
  exact h.1 rfl

/-- Invariant characterisation of `goSortSearch` for a monotone predicate:
the result splits the index range into a false prefix and a true suffix, as
Go's `sort.Search` documents. -/
theorem goSortSearch_spec (f : Nat → Bool) (n : Nat)
    (hmono : ∀ k₁ k₂, k₁ ≤ k₂ → k₂ < n → f k₁ = true → f k₂ = true)
    (i j : Nat) (hij : i ≤ j) (hjn : j ≤ n)
    (hlo : ∀ k, k < i → f k = false)
    (hhi : ∀ k, j ≤ k → k < n → f k = true) :
    i ≤ HashRing.goSortSearch f i j ∧ HashRing.goSortSearch f i j ≤ j ∧
    (∀ k, k < HashRing.goSortSearch f i j → f k = false) ∧
    (∀ k, HashRing.goSortSearch f i j ≤ k → k < n → f k = true) := by
  unfold HashRing.goSortSearch
  by_cases h : i < j
  · rw [dif_pos h]
    dsimp only
    by_cases hf : f ((i + j) / 2)
    · rw [if_pos hf]
      have hrec := goSortSearch_spec f n hmono i ((i + j) / 2) (by omega) (by omega) hlo
        (fun k hk hkn => hmono _ k hk hkn hf)
      exact ⟨hrec.1, by omega, hrec.2.2.1, hrec.2.2.2⟩
    · rw [if_neg hf]
      have hlo' : ∀ k, k < (i + j) / 2 + 1 → f k = false := by
        intro k hk
        by_cases hki : k < i
        · exact hlo k hki
        · cases hfk : f k with
          | false => rfl
          | true =>
            exfalso
            exact hf (hmono k ((i + j) / 2) (by omega) (by omega) hfk)
      have hrec := goSortSearch_spec f n hmono ((i + j) / 2 + 1) j (by omega) hjn hlo' hhi
      exact ⟨by omega, hrec.2.1, hrec.2.2.1, hrec.2.2.2⟩
  · rw [dif_neg h]
    exact ⟨le_refl i, by omega, hlo, fun k hk hkn => hhi k (by omega) hkn⟩
termination_by j - i
decreasing_by
  · omega
  · omega

/-- C7: ring lookup.  `Get` returns `""` for an empty key (with the ring
untouched) or an empty ring; for a non-empty key on a non-empty sorted ring
it returns the node mapped to `keys[i]` for the least `i` with
`keys[i] ≥ hash(key)`, wrapping to index 0 when no key qualifies; and with
the membership fixed, an immediately repeated `Get` (the first call only
bumps the load counters) returns the same node. -/
theorem c7_ring_get_lookup (hashF : String → Int) (r : HashRing) (key : String)
    (hsorted : r.keys.Sorted (· ≤ ·)) :
    (HashRing.Get hashF r "" = (r, "")) ∧
    (r.keys = [] → (HashRing.Get hashF r key).2 = "") ∧
    (key ≠ "" → r.keys ≠ [] →
      ((∃ i, i < r.keys.length ∧ hashF key ≤ lgetD r.keys i 0 ∧
          (∀ k, k < i → lgetD r.keys k 0 < hashF key) ∧
          (HashRing.Get hashF r key).2 = alookupD r.hashMap (lgetD r.keys i 0) "") ∨
        ((∀ k, k < r.keys.length → lgetD r.keys k 0 < hashF key) ∧
          (HashRing.Get hashF r key).2 = alookupD r.hashMap (lgetD r.keys 0 0) ""))) ∧
    ((HashRing.Get hashF (HashRing.Get hashF r key).1 key).2 =
      (HashRing.Get hashF r key).2) := by
  have hdet : ∀ key', (HashRing.Get hashF (HashRing.Get hashF r key').1 key').2 =
      (HashRing.Get hashF r key').2 := by
    intro key'
    unfold HashRing.Get
    by_cases hk : key' = ""
    · rw [if_pos hk, if_pos hk]
    · rw [if_neg hk]
      by_cases hl : r.keys.length = 0
      · rw [if_pos hl]
        dsimp only
        rw [if_neg hk, if_pos hl]
      · rw [if_neg hl]
        dsimp only
        rw [if_neg hk, if_neg hl]
  refine ⟨?_, ?_, ?_, hdet key⟩
  · unfold HashRing.Get
    rw [if_pos rfl]
  · intro hempty
    unfold HashRing.Get
    by_cases hk : key = ""
    · rw [if_pos hk]
    · rw [if_neg hk, if_pos (by rw [hempty]; rfl)]
  · intro hk hne
    have hlen : 0 < r.keys.length := List.length_pos.2 hne
    have hmono : ∀ k₁ k₂, k₁ ≤ k₂ → k₂ < r.keys.length →
        decide (hashF key ≤ lgetD r.keys k₁ 0) = true →
        decide (hashF key ≤ lgetD r.keys k₂ 0) = true := by
      intro k₁ k₂ hle hk₂ hd
      have h₁ := of_decide_eq_true hd
      rcases Nat.lt_or_ge k₁ k₂ with hlt | hge
      · have hk₁ : k₁ < r.keys.length := by omega
        have hmm := hsorted.rel_get_of_lt (a := ⟨k₁, hk₁⟩) (b := ⟨k₂, hk₂⟩) hlt
        simp only [List.get_eq_getElem] at hmm
        apply decide_eq_true
        rw [lgetD_eq_getElem _ _ _ hk₂]
        rw [lgetD_eq_getElem _ _ _ hk₁] at h₁
        exact le_trans h₁ hmm
      · have : k₁ = k₂ := by omega
        subst this
        exact hd
    have hspec := goSortSearch_spec (fun i => decide (hashF key ≤ lgetD r.keys i 0))
      r.keys.length hmono 0 r.keys.length (by omega) (le_refl _)
      (fun k hk => absurd hk (Nat.not_lt_zero k)) (fun k hk hkn => absurd hkn (by omega))
    unfold HashRing.Get
    rw [if_neg hk, if_neg (by omega)]
    dsimp only
    by_cases hend : HashRing.goSortSearch
        (fun i => decide (hashF key ≤ lgetD r.keys i 0)) 0 r.keys.length = r.keys.length
    · right
      constructor
      · intro k hkn
        have := hspec.2.2.1 k (by omega)
        have := of_decide_eq_false this
        omega
      · rw [if_pos hend]
    · left
      refine ⟨HashRing.goSortSearch (fun i => decide (hashF key ≤ lgetD r.keys i 0)) 0
          r.keys.length, by omega, ?_, ?_, ?_⟩
      · exact of_decide_eq_true (hspec.2.2.2 _ (le_refl _) (by omega))
      · intro k hkn
        have := hspec.2.2.1 k hkn
        have := of_decide_eq_false this
        omega
      · rw [if_neg hend]

/-- C7 witness: a three-node ring and a constant hash 12 landing strictly
inside the key range; the empty-key equation and the repeated-`Get`
determinism are the instantiated conclusions. -/
theorem c7_ring_get_lookup_witness :
    HashRing.Get (fun _ => (12 : Int))
        ⟨[10, 20, 30], [(10, "A"), (20, "B"), (30, "C")], [], [], 0⟩ "" =
      (⟨[10, 20, 30], [(10, "A"), (20, "B"), (30, "C")], [], [], 0⟩, "") ∧
    (HashRing.Get (fun _ => (12 : Int))
        (HashRing.Get (fun _ => (12 : Int))
          ⟨[10, 20, 30], [(10, "A"), (20, "B"), (30, "C")], [], [], 0⟩ "x").1 "x").2 =
      (HashRing.Get (fun _ => (12 : Int))
        ⟨[10, 20, 30], [(10, "A"), (20, "B"), (30, "C")], [], [], 0⟩ "x").2 := by
  have h := c7_ring_get_lookup (fun _ => (12 : Int))
    ⟨[10, 20, 30], [(10, "A"), (20, "B"), (30, "C")], [], [], 0⟩ "x" (by decide)
  exact ⟨h.1, h.2.2.2⟩

theorem addNode_nodeReplicas (hashF : String → Int) (r : HashRing) (node : String)
    (replicas : Int) :
    (HashRing.addNode hashF r node replicas).nodeReplicas =
      ainsert r.nodeReplicas node replicas := by
  unfold HashRing.addNode
  dsimp only
  congr 1
  generalize List.range replicas.toNat = l
  induction l generalizing r with
  | nil => rfl
  | cons hd tl ih => exact ih _

theorem remove_ok_nodeReplicas (hashF : String → Int) (r r' : HashRing) (node : String)
    (h : HashRing.Remove hashF r node = .ok r') :
    r'.nodeReplicas = aerase r.nodeReplicas node := by
  unfold HashRing.Remove at h
  by_cases hn : node = ""
  · rw [if_pos hn] at h
    cases h
  · rw [if_neg hn] at h
    dsimp only at h
    by_cases hz : alookupD r.nodeReplicas node 0 = 0
    · rw [if_pos hz] at h
      cases h
    · rw [if_neg hz] at h
      have hfold : ∀ (l : List Nat) (r₀ : HashRing),
          ((l.foldl (fun (r : HashRing) i =>
            { r with hashMap := aerase r.hashMap (hashF (HashRing.virtualName node i)),
                     keys := r.keys.erase (hashF (HashRing.virtualName node i)) }) r₀)).nodeReplicas =
          r₀.nodeReplicas := by
        intro l
        induction l with
        | nil => intro r₀; rfl
        | cons hd tl ih => intro r₀; exact ih _
      cases h
      dsimp only
      rw [hfold]

/-- **C8** (code bug): the claimed rebalance never completes once any node
actually resizes.  `rebalanceNodes` takes `r.mu.Lock()` and, in the resize
branch, calls `r.Remove(node)`, which takes `r.mu.Lock()` again; a Go
`sync.RWMutex` is not reentrant, so the balancer goroutine self-deadlocks,
holding the ring's write lock forever.  At the concrete load (two nodes of
100 replicas, counts A = 2250 and B = 750 over 3000 requests, avg 1500,
node A's ratio 1.5): the loop computes node A's new count as the truncation
`int(100 / 1.5) = 66 ≠ 100` — already not the claimed `round(100 / 1.5)
= 67` — and then blocks inside `Remove`, so no post-state with adjusted
replicas, zeroed counters, reset total or re-sorted keys is ever produced
(the model returns `none`).  A balanced ring in which no node resizes does
complete, zeroing the counters, resetting the total and re-sorting the
keys — the blockage is the resize path itself. -/
theorem c8_rebalance_resize_deadlock :
    HashRing.rebalanceNodes DefaultRingConfig
        ⟨[], [], [("A", 100), ("B", 100)], [("A", 2250), ("B", 750)], 3000⟩ = none ∧
    HashRing.newReplicasClamped DefaultRingConfig 100 2250 1500 = 66 ∧
    round ((100 : ℚ) / ((2250 : ℚ) / (1500 : ℚ))) = (67 : Int) ∧
    (∃ r', HashRing.rebalanceNodes DefaultRingConfig
          ⟨[5, 3], [(3, "A"), (5, "B")], [("A", 50), ("B", 50)],
            [("A", 1500), ("B", 1500)], 3000⟩ = some r' ∧
        r'.nodeCounts = [("A", 0), ("B", 0)] ∧ r'.totalRequests = 0 ∧
        r'.keys.Sorted (fun a b : Int => a ≤ b)) := by
  refine ⟨?_, ?_, ?_, ?_⟩
  · have hA : HashRing.newReplicasClamped DefaultRingConfig 100 2250
        (((3000 : Int) : ℚ) / ((List.length [("A", (100 : Int)), ("B", 100)] : ℕ) : ℚ)) = 66 := by
      unfold HashRing.newReplicasClamped HashRing.goTrunc DefaultRingConfig
      norm_num
    have hblockA : HashRing.rebalWouldBlock DefaultRingConfig
        (((3000 : Int) : ℚ) / ((List.length [("A", (100 : Int)), ("B", 100)] : ℕ) : ℚ))
        ⟨[], [], [("A", 100), ("B", 100)], [("A", 2250), ("B", 750)], 3000⟩
        ("A", 2250) = true := by
      rw [HashRing.rebalWouldBlock]
      dsimp only
      rw [show alookupD [("A", (100 : Int)), ("B", 100)] "A" 0 = 100 from rfl, hA]
      rfl
    rw [HashRing.rebalanceNodes]
    dsimp only
    rw [List.any_cons, hblockA, Bool.true_or]
    rfl
  · unfold HashRing.newReplicasClamped HashRing.goTrunc DefaultRingConfig
    norm_num
  · norm_num [round_eq]
  · have hA50 : HashRing.newReplicasClamped DefaultRingConfig 50 1500
        (((3000 : Int) : ℚ) / ((List.length [("A", (50 : Int)), ("B", 50)] : ℕ) : ℚ)) = 50 := by
      unfold HashRing.newReplicasClamped HashRing.goTrunc DefaultRingConfig
      norm_num
    have hnoblock : ∀ node : String,
        HashRing.rebalWouldBlock DefaultRingConfig
          (((3000 : Int) : ℚ) / ((List.length [("A", (50 : Int)), ("B", 50)] : ℕ) : ℚ))
          ⟨[5, 3], [(3, "A"), (5, "B")], [("A", 50), ("B", 50)],
            [("A", 1500), ("B", 1500)], 3000⟩ (node, 1500) =
          (!(node == "") && !(HashRing.newReplicasClamped DefaultRingConfig
              (alookupD [("A", (50 : Int)), ("B", 50)] node 0) 1500
              (((3000 : Int) : ℚ) / ((List.length [("A", (50 : Int)), ("B", 50)] : ℕ) : ℚ)) ==
            alookupD [("A", (50 : Int)), ("B", 50)] node 0)) := fun _ => rfl
    refine ⟨{ keys := [5, 3].mergeSort (fun a b => a ≤ b),
              hashMap := [(3, "A"), (5, "B")],
              nodeReplicas := [("A", 50), ("B", 50)],
              nodeCounts := [("A", 0), ("B", 0)],
              totalRequests := 0 }, ?_, rfl, rfl, ?_⟩
    · rw [HashRing.rebalanceNodes]
      dsimp only
      rw [List.any_cons, List.any_cons, List.any_nil,
        hnoblock "A", hnoblock "B",
        show alookupD [("A", (50 : Int)), ("B", 50)] "A" 0 = 50 from rfl,
        show alookupD [("A", (50 : Int)), ("B", 50)] "B" 0 = 50 from rfl, hA50]
      rfl
    · have hs := @List.sorted_mergeSort Int (fun a b : Int => a ≤ b)
        (fun a b c hab hbc => decide_eq_true (le_trans (of_decide_eq_true hab)
          (of_decide_eq_true hbc)))
        (fun a b => by
          rcases le_total a b with h | h
          · simp [decide_eq_true h]
          · simp [decide_eq_true h])
        [5, 3]
      exact hs.imp (fun h => of_decide_eq_true h)

/-- C10: single-tier LRU nil-value behaviour.  `Set`/`SetWithExpiration`
with a nil value store nothing: they run `Delete(key)` and return a nil
error; afterwards neither the entry nor its expiration record exists, and
the eviction callback fires exactly as for an explicit `Delete` (once with
the removed value when the key was present, not at all otherwise). -/
theorem c10_lru_nil_value_deletes {V : Type} (lenOf : V → Int) (c : LRUCache V) (t : Int)
    (key : String) (exp : Int)
    (hndv : (c.values.map Prod.fst).Nodup)
    (hnde : (c.expiration.map Prod.fst).Nodup)
    (hsub : ∀ p ∈ c.expiration, (alookup c.values p.1).isSome) :
    (LRUCache.SetWithExpiration lenOf c t key none exp).2.1 = none ∧
    (LRUCache.SetWithExpiration lenOf c t key none exp).1 = (LRUCache.Delete lenOf c key).1 ∧
    (LRUCache.SetWithExpiration lenOf c t key none exp).2.2 = (LRUCache.Delete lenOf c key).2.2 ∧
    alookup (LRUCache.SetWithExpiration lenOf c t key none exp).1.values key = none ∧
    alookup (LRUCache.SetWithExpiration lenOf c t key none exp).1.expiration key = none ∧
    (∀ v, alookup c.values key = some v →
      (LRUCache.SetWithExpiration lenOf c t key none exp).2.2 = [(key, v)]) ∧
    (alookup c.values key = none →
      (LRUCache.SetWithExpiration lenOf c t key none exp).2.2 = []) := by
  have hexp : alookup c.values key = none → alookup c.expiration key = none := by
    intro hv
    cases hx : alookup c.expiration key with
    | none => rfl
    | some x =>
      have hm := alookup_mem c.expiration key x hx
      have := hsub _ hm
      rw [hv] at this
      simp at this
  unfold LRUCache.SetWithExpiration LRUCache.Delete LRUCache.removeElement
  cases hl : alookup c.values key with
  | some v =>
    dsimp only
    refine ⟨rfl, rfl, rfl, ?_, ?_, ?_, ?_⟩
    · exact alookup_aerase_self _ _ hndv
    · exact alookup_aerase_self _ _ hnde
    · intro v' hv'
      cases hv'
      rfl
    · intro h
      cases h
  | none =>
    dsimp only
    refine ⟨rfl, rfl, rfl, hl, hexp hl, ?_, fun _ => rfl⟩
    intro v' hv'
    cases hv'

/-- C10 witness: one entry with an expiration record, removed by a nil-value
`SetWithExpiration`. -/
theorem c10_lru_nil_value_deletes_witness :
    (LRUCache.SetWithExpiration (fun _ : Nat => 4) ⟨["k"], [("k", 9)], [("k", 50)], 100, 5⟩
        60 "k" none 7).2.1 = none ∧
    alookup (LRUCache.SetWithExpiration (fun _ : Nat => 4) ⟨["k"], [("k", 9)], [("k", 50)], 100, 5⟩
        60 "k" none 7).1.values "k" = none ∧
    alookup (LRUCache.SetWithExpiration (fun _ : Nat => 4) ⟨["k"], [("k", 9)], [("k", 50)], 100, 5⟩
        60 "k" none 7).1.expiration "k" = none ∧
    (LRUCache.SetWithExpiration (fun _ : Nat => 4) ⟨["k"], [("k", 9)], [("k", 50)], 100, 5⟩
        60 "k" none 7).2.2 = [("k", 9)] := by
  have h := c10_lru_nil_value_deletes (fun _ : Nat => 4)
    ⟨["k"], [("k", 9)], [("k", 50)], 100, 5⟩ 60 "k" 7
    (by decide) (by decide) (by decide)
  exact ⟨h.1, h.2.2.2.1, h.2.2.2.2.1, h.2.2.2.2.2.1 9 (by decide)⟩

/-! ## C9: bucket-count rounding in `lru2.New` -/

/-- One smear step: or-ing a value with its right shift by `s` widens the
window of source bits feeding each result bit from `s` to `2*s`. -/
theorem or_shift_spread (c x s : Nat)
    (hx : ∀ i, x.testBit i = true ↔ ∃ d, d < s ∧ c.testBit (i + d) = true) (i : Nat) :
    (x ||| x >>> s).testBit i = true ↔ ∃ d, d < 2 * s ∧ c.testBit (i + d) = true := by
  rw [Nat.testBit_or, Nat.testBit_shiftRight, Bool.or_eq_true]
  constructor
  · rintro (h | h)
    · rcases (hx i).1 h with ⟨d, hd, hb⟩
      exact ⟨d, by omega, hb⟩
    · rcases (hx (s + i)).1 h with ⟨d, hd, hb⟩
      refine ⟨s + d, by omega, ?_⟩
      rw [show i + (s + d) = s + i + d by omega]
      exact hb
  · rintro ⟨d, hd, hb⟩
    by_cases hds : d < s
    · exact Or.inl ((hx i).2 ⟨d, hds, hb⟩)
    · refine Or.inr ((hx (s + i)).2 ⟨d - s, by omega, ?_⟩)
      rw [show s + i + (d - s) = i + d by omega]
      exact hb

/-- Bit `i` of the four-step smear cascade in `maskOfNextPowOf2`'s slow path
is set iff some bit `i..i+15` of the input is set. -/
theorem maskOfNextPowOf2_else_testBit (cap : Nat)
    (hnp : ¬(0 < cap ∧ cap &&& (cap - 1) = 0)) (i : Nat) :
    (maskOfNextPowOf2 cap).testBit i = true ↔
      ∃ d, d < 16 ∧ cap.testBit (i + d) = true := by
  have h1 : ∀ j, cap.testBit j = true ↔ ∃ d, d < 1 ∧ cap.testBit (j + d) = true := by
    intro j
    constructor
    · intro h; exact ⟨0, by omega, by simpa using h⟩
    · rintro ⟨d, hd, hb⟩
      have hd0 : d = 0 := by omega
      subst hd0
      simpa using hb
  have h2 := or_shift_spread cap cap 1 h1
  have h4 := or_shift_spread cap (cap ||| cap >>> 1) 2 h2
  have h8 := or_shift_spread cap ((cap ||| cap >>> 1) ||| (cap ||| cap >>> 1) >>> 2) 4 h4
  have h16 := or_shift_spread cap
    (((cap ||| cap >>> 1) ||| (cap ||| cap >>> 1) >>> 2) |||
      ((cap ||| cap >>> 1) ||| (cap ||| cap >>> 1) >>> 2) >>> 4) 8 h8
  rw [maskOfNextPowOf2, if_neg hnp]
  dsimp only
  constructor
  · intro h
    rcases (h16 i).1 h with ⟨d, hd, hb⟩
    exact ⟨d, by omega, hb⟩
  · rintro ⟨d, hd, hb⟩
    exact (h16 i).2 ⟨d, by omega, hb⟩

/-- A number in `[2^l, 2^(l+1))` has bit `l` set. -/
theorem testBit_msb (m l : Nat) (hle : 2 ^ l ≤ m) (hlt : m < 2 ^ (l + 1)) :
    m.testBit l = true := by
  have hp : 0 < 2 ^ l := Nat.two_pow_pos l
  have hd1 : 1 ≤ m / 2 ^ l := (Nat.one_le_div_iff hp).mpr hle
  have hd2 : m / 2 ^ l < 2 := by
    rw [Nat.div_lt_iff_lt_mul hp]
    calc m < 2 ^ (l + 1) := hlt
    _ = 2 * 2 ^ l := by rw [Nat.pow_succ]; ring
  have hdiv : m / 2 ^ l = 1 := by omega
  rw [Nat.testBit_to_div_mod, hdiv]
  decide

/-- A power of two passes the fast-path test `cap & (cap-1) == 0`. -/
theorem two_pow_land_pred (k : Nat) : 2 ^ k &&& (2 ^ k - 1) = 0 := by
  apply Nat.eq_of_testBit_eq
  intro i
  rw [Nat.testBit_and, Nat.testBit_two_pow, Nat.testBit_two_pow_sub_one, Nat.zero_testBit]
  by_cases h : k = i
  · subst h; simp
  · simp [h]

/-- Conversely, a positive number passing `cap & (cap-1) == 0` is the power
of two `2 ^ log2 cap` (otherwise bit `log2 cap` is set in both `cap` and
`cap - 1`). -/
theorem land_pred_eq_zero_pow (c : Nat) (h0 : 0 < c) (h : c &&& (c - 1) = 0) :
    c = 2 ^ Nat.log 2 c := by
  by_contra hne
  have hle : 2 ^ Nat.log 2 c ≤ c := Nat.pow_log_le_self 2 (by omega)
  have hlt : c < 2 ^ (Nat.log 2 c + 1) := Nat.lt_pow_succ_log_self (by norm_num) c
  have hgt : 2 ^ Nat.log 2 c < c := lt_of_le_of_ne hle (fun he => hne he.symm)
  have hb1 : c.testBit (Nat.log 2 c) = true := testBit_msb c _ hle hlt
  have hb2 : (c - 1).testBit (Nat.log 2 c) = true := testBit_msb (c - 1) _ (by omega) (by omega)
  have hand : (c &&& (c - 1)).testBit (Nat.log 2 c) = true := by
    rw [Nat.testBit_and, hb1, hb2]
    rfl
  rw [h, Nat.zero_testBit] at hand
  cases hand

/-- On the slow path, the smear cascade produces exactly the all-ones mask
`2 ^ (log2 cap + 1) - 1` for `0 < cap < 2^16`. -/
theorem maskOfNextPowOf2_else_eq (cap : Nat) (h0 : 0 < cap) (hlt : cap < 2 ^ 16)
    (hnp : cap &&& (cap - 1) ≠ 0) :
    maskOfNextPowOf2 cap = 2 ^ (Nat.log 2 cap + 1) - 1 := by
  have hL : Nat.log 2 cap + 1 ≤ 16 := by
    have := Nat.log_lt_of_lt_pow (by omega : cap ≠ 0) hlt
    omega
  apply Nat.eq_of_testBit_eq
  intro i
  have hiff := maskOfNextPowOf2_else_testBit cap (by rintro ⟨_, hx⟩; exact hnp hx) i
  have hmsb : cap.testBit (Nat.log 2 cap) = true :=
    testBit_msb cap _ (Nat.pow_log_le_self 2 (by omega)) (Nat.lt_pow_succ_log_self (by norm_num) cap)
  rw [Nat.testBit_two_pow_sub_one]
  by_cases hi : i < Nat.log 2 cap + 1
  · have hbit : (maskOfNextPowOf2 cap).testBit i = true := by
      apply hiff.2
      refine ⟨Nat.log 2 cap - i, by omega, ?_⟩
      rw [show i + (Nat.log 2 cap - i) = Nat.log 2 cap by omega]
      exact hmsb
    rw [hbit]
    simp [hi]
  · have hbit : ¬(maskOfNextPowOf2 cap).testBit i = true := by
      rw [hiff]
      rintro ⟨d, hd, hb⟩
      have hcb : cap < 2 ^ (i + d) :=
        lt_of_lt_of_le (Nat.lt_pow_succ_log_self (by norm_num) cap)
          (Nat.pow_le_pow_right (by norm_num) (by omega))
      rw [Nat.testBit_lt_two_pow hcb] at hb
      cases hb
    rw [Bool.not_eq_true] at hbit
    rw [hbit]
    simp
    omega

/-- For `1 ≤ bucketCount ≤ 32768` the allocated bucket count is the least
power of two `≥ bucketCount`, and equals `mask + 1` without `uint16`
wrap-around. -/
theorem lru2NumBuckets_spec (bc : Nat) (h1 : 1 ≤ bc) (h2 : bc ≤ 32768) :
    ∃ k, lru2Mask bc = 2 ^ k - 1 ∧ lru2NumBuckets bc = 2 ^ k ∧ bc ≤ 2 ^ k ∧
      ∀ j, bc ≤ 2 ^ j → 2 ^ k ≤ 2 ^ j := by
  have hbc0 : ¬bc = 0 := by omega
  have hmask : lru2Mask bc = maskOfNextPowOf2 bc := by rw [lru2Mask, if_neg hbc0]
  by_cases hp : bc &&& (bc - 1) = 0
  · have hc : bc = 2 ^ Nat.log 2 bc := land_pred_eq_zero_pow bc (by omega) hp
    have hm : maskOfNextPowOf2 bc = bc - 1 := by rw [maskOfNextPowOf2, if_pos ⟨by omega, hp⟩]
    refine ⟨Nat.log 2 bc, ?_, ?_, le_of_eq hc, ?_⟩
    · rw [hmask, hm, ← hc]
    · rw [lru2NumBuckets, hmask, hm, ← hc]
      omega
    · intro j hj
      rw [← hc]
      exact hj
  · have hne : bc ≠ 32768 := fun he => hp (by rw [he]; decide)
    have hlog : Nat.log 2 bc < 15 := Nat.log_lt_of_lt_pow (by omega) (by omega : bc < 2 ^ 15)
    have hmv : maskOfNextPowOf2 bc = 2 ^ (Nat.log 2 bc + 1) - 1 :=
      maskOfNextPowOf2_else_eq bc (by omega) (by omega) hp
    have hpowL : 2 ^ (Nat.log 2 bc + 1) ≤ 32768 := by
      calc 2 ^ (Nat.log 2 bc + 1) ≤ 2 ^ 15 := Nat.pow_le_pow_right (by norm_num) (by omega)
      _ = 32768 := by norm_num
    have h2L0 : 0 < 2 ^ (Nat.log 2 bc + 1) := Nat.two_pow_pos _
    refine ⟨Nat.log 2 bc + 1, ?_, ?_, ?_, ?_⟩
    · rw [hmask, hmv]
    · rw [lru2NumBuckets, hmask, hmv]
      omega
    · exact le_of_lt (Nat.lt_pow_succ_log_self (by norm_num) bc)
    · intro j hj
      rcases Nat.lt_or_ge j (Nat.log 2 bc + 1) with hlt' | hge
      · exfalso
        have h2j : 2 ^ j ≤ bc :=
          le_trans (Nat.pow_le_pow_right (by norm_num) (by omega : j ≤ Nat.log 2 bc))
            (Nat.pow_log_le_self 2 hbc0)
        exact hp (by rw [le_antisymm hj h2j]; exact two_pow_land_pred j)
      · exact Nat.pow_le_pow_right (by norm_num) hge

/-- C9 counterexample: at `bucketCount = 40000` the `uint16` computation
`mask + 1` wraps to `0`, so `New` allocates `0` buckets — not the claimed
least power of two `≥ bucketCount`, which is `2^16`. -/
theorem c9_counterexample_bucket_count_wrap :
    lru2NumBuckets 40000 = 0 ∧ 40000 ≤ 2 ^ 16 ∧
      (∀ k : Nat, 40000 ≤ 2 ^ k → 2 ^ 16 ≤ 2 ^ k) ∧ (0 : Nat) ≠ 2 ^ 16 := by
  refine ⟨by decide, by norm_num, ?_, by norm_num⟩
  intro k hk
  rcases Nat.lt_or_ge k 16 with h | h
  · exfalso
    have hpk : (2 : Nat) ^ k ≤ 2 ^ 15 := Nat.pow_le_pow_right (by norm_num) (by omega)
    omega
  · exact Nat.pow_le_pow_right (by norm_num) h

/-- **C9** (amended): for `1 ≤ bucketCount ≤ 32768`, `New` rounds the bucket
count up to the least power of two `≥ bucketCount` (for larger `uint16`
inputs the `uint16` sum `mask + 1` wraps to `0`, see the counterexample);
the allocated count equals `bucketMask + 1`, and every bucket index
`hashBKRD(key) & bucketMask` is in range. -/
theorem c9_bucket_count_rounding (bc : Nat) (h1 : 1 ≤ bc) (h2 : bc ≤ 32768) :
    (∃ k, lru2NumBuckets bc = 2 ^ k ∧ bc ≤ 2 ^ k ∧ ∀ j, bc ≤ 2 ^ j → 2 ^ k ≤ 2 ^ j) ∧
    lru2NumBuckets bc = lru2Mask bc + 1 ∧
    (∀ key, lru2BucketIndex key (lru2Mask bc) < lru2NumBuckets bc) := by
  obtain ⟨k, hmask, hnum, hle, hmin⟩ := lru2NumBuckets_spec bc h1 h2
  have h2k0 : 0 < 2 ^ k := Nat.two_pow_pos k
  refine ⟨⟨k, hnum, hle, hmin⟩, by rw [hnum, hmask]; omega, ?_⟩
  intro key
  have hidx : lru2BucketIndex key (lru2Mask bc) ≤ lru2Mask bc := Nat.and_le_right
  rw [hnum]
  omega

/-- C9 witness: the amended rounding statement holds at `bucketCount = 5`
(rounded up to `8` buckets). -/
theorem c9_bucket_count_rounding_witness :
    (1 ≤ 5 ∧ 5 ≤ 32768) ∧
      ((∃ k, lru2NumBuckets 5 = 2 ^ k ∧ 5 ≤ 2 ^ k ∧ ∀ j, 5 ≤ 2 ^ j → 2 ^ k ≤ 2 ^ j) ∧
       lru2NumBuckets 5 = lru2Mask 5 + 1 ∧
       (∀ key, lru2BucketIndex key (lru2Mask 5) < lru2NumBuckets 5)) :=
  ⟨⟨by decide, by decide⟩, c9_bucket_count_rounding 5 (by decide) (by decide)⟩

/-- C6: from-peer loop avoidance fails for Delete.  The originator's
`syncToPeers` issues `peer.Delete(name, key)` with no context, so the
outgoing request carries no from-peer marker, and the receiving server's
`Delete` handler (unlike its `Set` handler) does not inject the marker
before calling `Group.Delete`; the receiving group therefore initiates its
own propagation, contradicting the claim that the receiver does not
re-propagate.  Evaluated at a concrete two-node scenario. -/
theorem c6_delete_propagation_unmarked :
    (Group.Delete ⟨false, [("k", [1])], true⟩
        ⟨fun _ => .error "ds", fun _ => true, fun _ => false, fun _ => .error "pg"⟩
        ⟨false⟩ "k").2.2 = some ⟨"delete", "k", [], false⟩ ∧
    (Server.DeleteHandler ⟨false, [("k", [1])], true⟩
        ⟨fun _ => .error "ds", fun _ => true, fun _ => false, fun _ => .error "pg"⟩
        (Server.deliveredDeleteCtx ⟨"delete", "k", [], false⟩) "k").2.2 =
      some ⟨"delete", "k", [], false⟩ := by
  constructor <;> rfl

end MyCache
